import Mathlib

/-!
# Verification of the fdl-gov-dash data pipeline (`src/static/js/main.js`)

A shallow embedding of the dashboard's data-merging/normalization pipeline:
bundle filtering, compute-policy evidence normalization, question/answer
extraction, row building, sorting, Q/A pagination arithmetic, CSV export
and the hallucination-score extractor.

Modelling conventions:
* JSON values (`Json` below) carry exact rationals for numbers; the source
  operates on JavaScript doubles, but every number exercised here is an
  exact decimal, so nothing in the claims depends on float rounding.
* `null` and `undefined` are both modelled as `Option.none` (respectively
  `Json.null` for in-tree nulls); the two are distinguishable in JS only by
  `===` against the other, which the source never does.
* JavaScript truthiness, `||` defaulting, strict equality on ids, and the
  `for … of` loops with `break`/`continue` are translated point-by-point.
* Code that can throw a `TypeError` (e.g. calling `.includes` on a number)
  is modelled in `Except Unit`; `.error ()` marks the thrown exception.
* `String.prototype.localeCompare` is modelled as code-point (lexicographic)
  string comparison, and `Array.prototype.sort` with a consistent comparator
  as a stable sort (insertion sort).
-/

/-- A JSON value, as produced by parsing an API response. Numbers are exact
rationals (see the module comment). Object member order is the JS insertion
order. -/
inductive Json where
  | null
  | bool (b : Bool)
  | num (q : ℚ)
  | str (s : String)
  | arr (elems : List Json)
  | obj (fields : List (String × Json))

/-- JavaScript truthiness of a JSON value: `null`, `false`, `0` and `""` are
falsy; every array and object (even empty) is truthy. -/
def jsTruthy : Json → Bool
  | .null => false
  | .bool b => b
  | .num q => q != 0
  | .str s => s != ""
  | .arr _ => true
  | .obj _ => true

/-- Truthiness of a possibly-absent value (`undefined` is falsy). -/
def jsTruthyOpt : Option Json → Bool
  | none => false
  | some v => jsTruthy v

/-- Association-list lookup (JS object property read): the first entry with
the given key. -/
def alookup {α : Type} (q : String) : List (String × α) → Option α
  | [] => none
  | (k, v) :: m => if q = k then some v else alookup q m

/-- `mapM` over `Except Unit` (a JS loop that can throw), written recursively
so proofs can follow its structure. -/
def exceptMapM {α β : Type} (f : α → Except Unit β) : List α → Except Unit (List β)
  | [] => .ok []
  | a :: l =>
    match f a with
    | .error e => .error e
    | .ok b =>
        match exceptMapM f l with
        | .error e => .error e
        | .ok bs => .ok (b :: bs)

/-- `foldlM` over `Except Unit`, written recursively. -/
def exceptFoldlM {α σ : Type} (f : σ → α → Except Unit σ) : σ → List α → Except Unit σ
  | s, [] => .ok s
  | s, a :: l =>
    match f s a with
    | .error e => .error e
    | .ok s2 => exceptFoldlM f s2 l

/-- Property access `v.k`: only objects have named fields; everything else
(including arrays, whose `label` etc. are absent) yields `undefined`. -/
def jsGetField (v : Json) (k : String) : Option Json :=
  match v with
  | .obj fs => alookup k fs
  | _ => none

/-- `typeof v === 'object' && v !== null`: true for arrays and objects. -/
def jsIsObjectType : Json → Bool
  | .arr _ => true
  | .obj _ => true
  | _ => false

/-- Is this value exactly the given string (JS `===` against a string)? -/
def jsIsStr (s : String) : Json → Bool
  | .str t => t == s
  | _ => false

/-- JavaScript `a || b` over an optional string with `""` falsy: used for the
pervasive `x || 'default'` idiom in the source. -/
def jsOrS (a : Option String) (b : String) : String :=
  match a with
  | some s => if s = "" then b else s
  | none => b

/-- JavaScript `s || 'default'` on a plain string (`""` is falsy). -/
def jsOrS0 (a : String) (b : String) : String :=
  if a = "" then b else a

/-!
Character-list implementations of the string operations the source uses
(`trim`, `toLowerCase`, `includes`, `startsWith`/`endsWith`, `split`,
global literal `replace`, `localeCompare`): written over `String.data` so
that concrete runs reduce inside the kernel.
-/

/-- `String.prototype.trim`: strip leading/trailing whitespace. -/
def strTrim (s : String) : String :=
  String.mk (((s.data.dropWhile Char.isWhitespace).reverse.dropWhile
    Char.isWhitespace).reverse)

/-- `String.prototype.toLowerCase` (ASCII model). -/
def strToLower (s : String) : String :=
  String.mk (s.data.map Char.toLower)

/-- `s.includes(c)` for a one-character needle. -/
def strContainsChar (s : String) (c : Char) : Bool :=
  s.data.any (fun d => d == c)

/-- `String.prototype.startsWith`. -/
def strStartsWith (s pre : String) : Bool :=
  pre.data.isPrefixOf s.data

/-- `String.prototype.endsWith`. -/
def strEndsWith (s suf : String) : Bool :=
  suf.data.isSuffixOf s.data

/-- `String.prototype.split(c)` on a one-character separator (keeps empty
pieces, as JS does). -/
def splitOnChar (c : Char) : List Char → List (List Char)
  | [] => [[]]
  | a :: rest =>
      match splitOnChar c rest with
      | [] => [[a]]
      | h :: t => if a = c then [] :: h :: t else (a :: h) :: t

/-- `s.split('
')` as strings. -/
def strSplitNewlines (s : String) : List String :=
  (splitOnChar '
' s.data).map String.mk

/-- Left-to-right, non-overlapping replacement of every occurrence of a fixed
non-empty pattern (`.replace(/pat/g, rep)`), fuelled by the input length. -/
def replaceSubAux (pat rep : List Char) : Nat → List Char → List Char
  | 0, cs => cs
  | _ + 1, [] => []
  | fuel + 1, a :: rest =>
      if pat.isPrefixOf (a :: rest) then
        rep ++ replaceSubAux pat rep fuel ((a :: rest).drop pat.length)
      else a :: replaceSubAux pat rep fuel rest

/-- Global literal-pattern string replacement. -/
def strReplaceAll (s pat rep : String) : String :=
  String.mk (replaceSubAux pat.data rep.data s.data.length s.data)

/-- Code-point lexicographic comparison of character lists (the model of
`localeCompare(a, b) <= 0`). -/
def charListLe : List Char → List Char → Bool
  | [], _ => true
  | _ :: _, [] => false
  | a :: as, b :: bs =>
      if a < b then true
      else if a = b then charListLe as bs
      else false

/-- String comparison used by the sort comparator's tie-break. -/
def strLe (a b : String) : Bool :=
  charListLe a.data b.data

/-- Decimal digits of a natural number (most significant first). -/
def natDigitStr (n : Nat) : String :=
  toString n

/-- Left-pad a string with `'0'` to the given length. -/
def padZeros (s : String) (k : Nat) : String :=
  String.mk (List.replicate (k - s.length) '0') ++ s

/-- Rendering of a nonnegative rational as JavaScript renders the number, for
exact decimals: integers print without a point, other decimals print their
shortest decimal expansion. Rationals that are not finite decimals fall back
to `num/den` (never produced by the decimal inputs this pipeline sees). -/
def jsNumToStringNonneg (q : ℚ) : String :=
  if q.den = 1 then natDigitStr q.num.natAbs
  else
    match (List.range 40).find? (fun k => q.den ∣ 10 ^ k) with
    | some k =>
        let n := (q.num.natAbs * (10 ^ k / q.den))
        natDigitStr (n / 10 ^ k) ++ "." ++ padZeros (natDigitStr (n % 10 ^ k)) k
    | none => natDigitStr q.num.natAbs ++ "/" ++ natDigitStr q.den

/-- JavaScript number-to-string conversion (exact-decimal model). -/
def jsNumToString (q : ℚ) : String :=
  if q < 0 then "-" ++ jsNumToStringNonneg (-q) else jsNumToStringNonneg q

mutual
/-- JavaScript `String(v)` conversion: `null` prints `"null"`, arrays join
their elements with `","` (with `null` elements printing empty, as
`Array.prototype.join` does), plain objects print `"[object Object]"`. -/
def jsToString : Json → String
  | .null => "null"
  | .bool true => "true"
  | .bool false => "false"
  | .num q => jsNumToString q
  | .str s => s
  | .arr l => String.intercalate "," (jsJoinParts l)
  | .obj _ => "[object Object]"

/-- Element conversions for `Array.prototype.join`: `null` (and `undefined`)
become the empty string, everything else converts with `String(·)`. -/
def jsJoinParts : List Json → List String
  | [] => []
  | .null :: rest => "" :: jsJoinParts rest
  | v :: rest => jsToString v :: jsJoinParts rest
end

/-- `Array.prototype.join(sep)` on JSON array elements. -/
def jsArrayJoin (l : List Json) (sep : String) : String :=
  String.intercalate sep (jsJoinParts l)

/-- Escape one character for a JSON string literal (compact form, as
`JSON.stringify` emits). -/
def jsonEscapeChar (c : Char) : List Char :=
  if c = '"' then ['\\', '"']
  else if c = '\\' then ['\\', '\\']
  else if c = '\n' then ['\\', 'n']
  else if c = '\t' then ['\\', 't']
  else if c = '\r' then ['\\', 'r']
  else [c]

/-- Escape a string for a JSON string literal. -/
def jsonEscape (s : String) : String :=
  String.mk (s.data.flatMap jsonEscapeChar)

mutual
/-- Compact `JSON.stringify` of a value (no spacing), as the source uses for
"other object" answers and for nested values in the Sheets flattener. -/
def jsonStringify : Json → String
  | .null => "null"
  | .bool true => "true"
  | .bool false => "false"
  | .num q => jsNumToString q
  | .str s => "\"" ++ jsonEscape s ++ "\""
  | .arr l => "[" ++ String.intercalate "," (jsonStringifyList l) ++ "]"
  | .obj fs => "\x7b" ++ String.intercalate "," (jsonStringifyFields fs) ++ "\x7d"

def jsonStringifyList : List Json → List String
  | [] => []
  | v :: rest => jsonStringify v :: jsonStringifyList rest

def jsonStringifyFields : List (String × Json) → List String
  | [] => []
  | (k, v) :: rest =>
      ("\"" ++ jsonEscape k ++ "\":" ++ jsonStringify v) :: jsonStringifyFields rest
end

/-! ## A model of `JSON.parse`

Total, fuel-based recursive-descent parser for the JSON grammar (strict:
no trailing commas, double-quoted strings with the standard escapes).
The pipeline only ever parses strings it first checks for brace/bracket
delimiters, and every theorem below uses the same parser on both sides,
so its exact behaviour on malformed input is not load-bearing. -/

/-- JSON whitespace. -/
def jpIsWs (c : Char) : Bool :=
  c == ' ' || c == '\n' || c == '\t' || c == '\r'

def jpSkipWs (cs : List Char) : List Char :=
  cs.dropWhile jpIsWs

def jpTakeDigits (cs : List Char) : List Char × List Char :=
  (cs.takeWhile Char.isDigit, cs.dropWhile Char.isDigit)

def jpDigitsToNat (ds : List Char) : Nat :=
  ds.foldl (fun acc c => acc * 10 + (c.toNat - '0'.toNat)) 0

def jpHexVal (c : Char) : Option Nat :=
  let n := c.toNat
  if 48 ≤ n ∧ n ≤ 57 then some (n - 48)
  else if 97 ≤ n ∧ n ≤ 102 then some (n - 87)
  else if 65 ≤ n ∧ n ≤ 70 then some (n - 55)
  else none

def jpEscape (c : Char) : Option Char :=
  if c = '"' then some '"'
  else if c = '\\' then some '\\'
  else if c = '/' then some '/'
  else if c = 'n' then some '\n'
  else if c = 't' then some '\t'
  else if c = 'r' then some '\r'
  else if c = 'b' then some (Char.ofNat 8)
  else if c = 'f' then some (Char.ofNat 12)
  else none

/-- String body after the opening quote (structural on the input). -/
def jpString (acc : List Char) : List Char → Option (String × List Char)
  | [] => none
  | c :: rest =>
    if c = '"' then some (String.mk acc.reverse, rest)
    else if c = '\\' then
      match rest with
      | 'u' :: a :: b :: c2 :: d :: rest2 =>
          match jpHexVal a, jpHexVal b, jpHexVal c2, jpHexVal d with
          | some va, some vb, some vc, some vd =>
              jpString (Char.ofNat (((va * 16 + vb) * 16 + vc) * 16 + vd) :: acc) rest2
          | _, _, _, _ => none
      | e :: rest2 =>
          match jpEscape e with
          | some ch => jpString (ch :: acc) rest2
          | none => none
      | [] => none
    else jpString (c :: acc) rest

/-- JSON number (integer, optional fraction, optional exponent) as an exact
rational. -/
def jpNumber (cs : List Char) : Option (ℚ × List Char) :=
  let (neg, cs1) := match cs with | '-' :: r => (true, r) | _ => (false, cs)
  let (ids, cs2) := jpTakeDigits cs1
  if ids.isEmpty then none
  else
    let (fds, cs3) := match cs2 with
      | '.' :: r => jpTakeDigits r
      | _ => ([], cs2)
    let (expOk, expv, cs4) : Bool × Int × List Char := match cs3 with
      | 'e' :: r | 'E' :: r =>
          let (sgn, r1) : Int × List Char := match r with
            | '+' :: r2 => (1, r2)
            | '-' :: r2 => (-1, r2)
            | _ => (1, r)
          let (eds, r2) := jpTakeDigits r1
          if eds.isEmpty then (false, 0, r2) else (true, sgn * jpDigitsToNat eds, r2)
      | _ => (true, 0, cs3)
    if !expOk then none
    else
      let mant : Int := jpDigitsToNat (ids ++ fds)
      let mant := if neg then -mant else mant
      let scale : Int := expv - fds.length
      let q : ℚ :=
        if scale < 0 then Rat.divInt mant (10 ^ (-scale).toNat)
        else Rat.divInt (mant * 10 ^ scale.toNat) 1
      some (q, cs4)

mutual
def jpValue (fuel : Nat) (cs : List Char) : Option (Json × List Char) :=
  match fuel with
  | 0 => none
  | fuel + 1 =>
    match jpSkipWs cs with
    | 'n' :: 'u' :: 'l' :: 'l' :: r => some (.null, r)
    | 't' :: 'r' :: 'u' :: 'e' :: r => some (.bool true, r)
    | 'f' :: 'a' :: 'l' :: 's' :: 'e' :: r => some (.bool false, r)
    | '"' :: r =>
        match jpString [] r with
        | some (s, r2) => some (.str s, r2)
        | none => none
    | '[' :: r =>
        match jpSkipWs r with
        | ']' :: r2 => some (.arr [], r2)
        | r2 =>
            match jpElems fuel r2 with
            | some (es, r3) => some (.arr es, r3)
            | none => none
    | '{' :: r =>
        match jpSkipWs r with
        | '}' :: r2 => some (.obj [], r2)
        | r2 =>
            match jpMembers fuel r2 with
            | some (ms, r3) => some (.obj ms, r3)
            | none => none
    | c :: rest =>
        if c == '-' || c.isDigit then
          match jpNumber (c :: rest) with
          | some (q, r2) => some (.num q, r2)
          | none => none
        else none
    | [] => none

def jpElems (fuel : Nat) (cs : List Char) : Option (List Json × List Char) :=
  match fuel with
  | 0 => none
  | fuel + 1 =>
    match jpValue fuel cs with
    | none => none
    | some (v, r) =>
        match jpSkipWs r with
        | ',' :: r2 =>
            match jpElems fuel r2 with
            | some (vs, r3) => some (v :: vs, r3)
            | none => none
        | ']' :: r2 => some ([v], r2)
        | _ => none

def jpMembers (fuel : Nat) (cs : List Char) : Option (List (String × Json) × List Char) :=
  match fuel with
  | 0 => none
  | fuel + 1 =>
    match jpSkipWs cs with
    | '"' :: r =>
        match jpString [] r with
        | none => none
        | some (k, r1) =>
            match jpSkipWs r1 with
            | ':' :: r2 =>
                match jpValue fuel r2 with
                | none => none
                | some (v, r3) =>
                    match jpSkipWs r3 with
                    | ',' :: r4 =>
                        match jpMembers fuel r4 with
                        | some (ms, r5) => some ((k, v) :: ms, r5)
                        | none => none
                    | '}' :: r4 => some ((k, v) :: [], r4)
                    | _ => none
            | _ => none
    | _ => none
end

/-- `JSON.parse`: parse a complete document; trailing whitespace allowed,
trailing garbage rejected. `none` models the thrown `SyntaxError`. -/
def jsonParse (s : String) : Option Json :=
  let cs := s.data
  match jpValue (cs.length + 1) cs with
  | some (v, r) => if jpSkipWs r = [] then some v else none
  | none => none

/-! ## The number-extraction regex

`/([0-9]*\.?[0-9]+)/` as used by `extractModelHallucination`: the first
(leftmost, then greedy-with-backtracking) match of digits, an optional
point, and at least one digit. -/

/-- The match the regex produces when anchored at the head of `cs`, per the
standard greedy/backtracking semantics of `[0-9]*\.?[0-9]+`. -/
def numMatchAt (cs : List Char) : Option String :=
  let (a, rest) := (cs.takeWhile Char.isDigit, cs.dropWhile Char.isDigit)
  if a.isEmpty then
    match cs with
    | '.' :: r =>
        let b := r.takeWhile Char.isDigit
        if b.isEmpty then none else some (String.mk ('.' :: b))
    | _ => none
  else
    match rest with
    | '.' :: r =>
        let b := r.takeWhile Char.isDigit
        if b.isEmpty then some (String.mk a) else some (String.mk (a ++ '.' :: b))
    | _ => some (String.mk a)

/-- Leftmost match of the regex in a character list. -/
def firstNumMatchAux : List Char → Option String
  | [] => none
  | c :: rest =>
    match numMatchAt (c :: rest) with
    | some m => some m
    | none => firstNumMatchAux rest

/-- `s.match(/([0-9]*\.?[0-9]+)/)`, returning the matched text. -/
def firstNumMatch (s : String) : Option String :=
  firstNumMatchAux s.data

/-- `parseFloat` on a string of the shape the regex matches (digits, optional
point, digits): an exact decimal rational. -/
def parseDecimal (s : String) : ℚ :=
  let cs := s.data
  let (ip, rest) := (cs.takeWhile Char.isDigit, cs.dropWhile Char.isDigit)
  let fp := match rest with
    | '.' :: r => r.takeWhile Char.isDigit
    | _ => []
  mkRat (jpDigitsToNat ip * 10 ^ fp.length + jpDigitsToNat fp) (10 ^ fp.length)

/-! ## Data model

Record types for the governance API payloads, with `Option` for fields the
response may omit (`undefined`). Identifier-like fields are strings when
present, matching the schema the dashboard consumes. -/

/-- The policy id the dashboard is hardcoded to filter by (`main.js` line 12). -/
def HARDCODED_POLICY_ID : String := "10177420-1d88-41f6-a029-60d47f3cd397"

/-- One evidence-definition record inside a policy stage's `evidenceSet`. -/
structure EvidenceDef where
  id : Option String
  name : Option String
  externalId : Option String

/-- One stage of a policy. -/
structure Stage where
  evidenceSet : Option (List EvidenceDef)

/-- A full policy, as returned inside a compute-policy response and cached in
`appState.policies` keyed by its id. -/
structure Policy where
  id : String
  stages : Option (List Stage)

/-- A policy reference attached to a bundle (`bundle.policies[i]`). -/
structure PolicyRef where
  policyId : Option String
  policyName : Option String

/-- One evidence record (a draft or published result). -/
structure EvidenceRecord where
  evidenceId : Option String
  artifactContent : Option Json
  source : Option String

/-- `bundle.createdBy`. -/
structure CreatedBy where
  name : Option String

/-- `attachment.identifier` of a `ModelVersion` attachment. -/
structure AttachIdent where
  name : Option String
  version : Option String

/-- One bundle attachment. -/
structure Attachment where
  type : Option String
  identifier : Option AttachIdent

/-- A governance bundle as returned by the bundles endpoint. Fields the row
builder never reads are omitted. -/
structure Bundle where
  id : String
  name : Option String
  state : Option String
  createdAt : Option String
  createdBy : Option CreatedBy
  projectName : Option String
  projectOwner : Option String
  policyName : Option String
  policyId : Option String
  policies : Option (List PolicyRef)
  attachments : Option (List Attachment)
  stageApprovals : Option (List Json)
  commentsCount : Option Nat
  gates : Option (List Json)
  stages : Option (List Json)

/-- The body of one `rpc/compute-policy` response. -/
structure ComputeResp where
  policy : Option Policy
  drafts : Option (List EvidenceRecord)
  results : Option (List EvidenceRecord)

/-- Assignment `m[k] = v` on a JS object used as a map: replace in place when
the key exists (JS keeps the key's insertion position), append otherwise. -/
def assocInsert {α : Type} (m : List (String × α)) (k : String) (v : α) :
    List (String × α) :=
  if m.any (fun p => p.1 == k) then
    m.map (fun p => if p.1 == k then (k, v) else p)
  else m ++ [(k, v)]

/-- The relevant fetched state: the policy cache and the per-bundle evidence
store (`appState.policies` / `appState.evidence`). -/
structure FetchState where
  policies : List (String × Policy)
  evidence : List (String × List EvidenceRecord)

/-- The bundle filter applied in `fetchAllData` (lines 198–201): keep bundles
that are not archived and whose policy list mentions the hardcoded policy. -/
def fetchFilter (b : Bundle) : Bool :=
  b.state != some "Archived" &&
    (b.policies.getD []).any (fun p => p.policyId == some HARDCODED_POLICY_ID)

/-- Normalization of one compute-policy response (lines 234–239): take the
results list (or `[]`), tagging each record `source: 'result'`; drafts are
ignored. -/
def normalizeComputeEvidence (data : ComputeResp) : List EvidenceRecord :=
  (data.results.getD []).map (fun r => { r with source := some "result" })

/-- Processing of one bundle's compute-policy outcome (lines 209–248): on
success store the returned policy (if any) and the normalized results; on a
failed fetch log and leave the state untouched. -/
def applyFetch (st : FetchState) (b : Bundle) (outcome : Except Unit ComputeResp) :
    FetchState :=
  match outcome with
  | .error _ => st
  | .ok data =>
      let pols := match data.policy with
        | some p => assocInsert st.policies p.id p
        | none => st.policies
      { policies := pols
        evidence := assocInsert st.evidence b.id (normalizeComputeEvidence data) }

/-- The per-bundle fetch loop joined by `Promise.all`: every bundle's outcome
is folded into the shared state (each writes only its own key, so the JS
completion order is immaterial to the lookups the claims are about). -/
def runFetches (bundles : List Bundle) (fetch : Bundle → Except Unit ComputeResp) :
    FetchState :=
  bundles.foldl (fun st b => applyFetch st b (fetch b)) ⟨[], []⟩

/-- `appState.policies[ref.policyId]` — the policy-cache lookup both searches
perform per bundle-policy reference. -/
def lookupPolicy (pc : List (String × Policy)) (ref : PolicyRef) : Option Policy :=
  match ref.policyId with
  | some k => alookup k pc
  | none => none

/-- The first evidence definition matching the record's evidence id within one
policy: first matching stage, first matching entry of its `evidenceSet`
(mirrors the `find` + `break` of lines 283–289 and the `return` of 592–594). -/
def findDefInPolicy (p : Policy) (evId : Option String) : Option EvidenceDef :=
  match p.stages with
  | none => none
  | some stages =>
      stages.findSome? fun st =>
        (st.evidenceSet.getD []).find? (fun d => d.id == evId)

/-- The first matching evidence definition across the bundle's policy
references in order (the search of `getEvidenceExternalId`, lines 587–598). -/
def findEvidenceDef (pc : List (String × Policy)) (bps : Option (List PolicyRef))
    (evId : Option String) : Option EvidenceDef :=
  (bps.getD []).findSome? fun ref =>
    match lookupPolicy pc ref with
    | none => none
    | some fp => findDefInPolicy fp evId

/-- `getEvidenceExternalId` (lines 587–598): the external id of the first
matching definition. The JS returns that definition's `externalId` directly
(even when it is `undefined`, which the caller cannot tell apart from the
final `return null`), hence the `bind`. -/
def getEvidenceExternalId (pc : List (String × Policy)) (ev : EvidenceRecord)
    (bps : Option (List PolicyRef)) : Option String :=
  (findEvidenceDef pc bps ev.evidenceId).bind (fun d => d.externalId)

/-- Question resolution (lines 271–290): start from
`externalId || evidence.evidenceId || 'Unknown'`, then for **each** policy
reference in order whose policy has a matching definition, overwrite with
`def.name || def.externalId || question`. (The `break` on line 287 leaves only
the inner stage loop, so later policies override earlier ones.) -/
def resolveQuestion (pc : List (String × Policy)) (ev : EvidenceRecord)
    (bps : Option (List PolicyRef)) : String :=
  let q0 := jsOrS (getEvidenceExternalId pc ev bps) (jsOrS ev.evidenceId "Unknown")
  (bps.getD []).foldl
    (fun q ref =>
      match lookupPolicy pc ref with
      | none => q
      | some fp =>
          match findDefInPolicy fp ev.evidenceId with
          | none => q
          | some d => jsOrS d.name (jsOrS d.externalId q))
    q0

/-- Reformat a multi-line answer as bullets (lines 312–318): one `• `-prefixed
bullet per non-empty trimmed line, joined with `<br>`. -/
def bulletize (s : String) : String :=
  String.intercalate "<br>"
    ((((strSplitNewlines s).map strTrim).filter (fun l => l ≠ "")).map
      (fun l => "• " ++ l))

/-- Answer formatting of `extractQADictionary` (lines 293–318): `null`/absent
→ `"N/A"`; object branch: a truthy `label` wins, else arrays join with `", "`,
else compact JSON; otherwise `String(·)`; finally the multi-line bullet step.
`.error ()` is the `TypeError` thrown when the chosen `label` value has no
`.includes` (number, boolean, plain object) or an array `label` containing the
string `"\n"` reaches `.split`. -/
def formatAnswer (content : Option Json) : Except Unit Json :=
  let a : Json :=
    match content with
    | none => .str "N/A"
    | some .null => .str "N/A"
    | some v =>
        if jsIsObjectType v then
          match jsGetField v "label" with
          | some lv =>
              if jsTruthy lv then lv
              else match v with
                | .arr l => .str (jsArrayJoin l ", ")
                | _ => .str (jsonStringify v)
          | none =>
              match v with
              | .arr l => .str (jsArrayJoin l ", ")
              | _ => .str (jsonStringify v)
        else .str (jsToString v)
  match a with
  | .str s => .ok (.str (if strContainsChar s '\n' then bulletize s else s))
  | .arr l => if l.any (jsIsStr "\n") then .error () else .ok (.arr l)
  | _ => .error ()

/-- One entry of the Q/A dictionary (lines 320–327). -/
structure QAEntry where
  question : String
  answer : Json
  evidenceId : Option String
  externalId : Option String
  source : Option String
  rawContent : Option Json

/-- The Q/A entry computed for one evidence record (independent of the
dictionary built so far). -/
def qaEntryOf (pc : List (String × Policy)) (bps : Option (List PolicyRef))
    (ev : EvidenceRecord) : Except Unit QAEntry :=
  let extId := getEvidenceExternalId pc ev bps
  let q := resolveQuestion pc ev bps
  (formatAnswer ev.artifactContent).map fun ans =>
    { question := q, answer := ans, evidenceId := ev.evidenceId,
      externalId := extId, source := ev.source, rawContent := ev.artifactContent }

/-- `extractQADictionary` (lines 263–331): fold the evidence list into a
JS-object dictionary keyed by the resolved question. -/
def extractQADictionary (pc : List (String × Policy)) (evList : List EvidenceRecord)
    (bps : Option (List PolicyRef)) : Except Unit (List (String × QAEntry)) :=
  exceptFoldlM
    (fun d ev => (qaEntryOf pc bps ev).map fun e => assocInsert d e.question e)
    [] evList

/-- Property access `v.k` where `v` itself may be `null`: JS throws a
`TypeError` reading a property of `null`. -/
def jsGetFieldE (v : Json) (k : String) : Except Unit (Option Json) :=
  match v with
  | .null => .error ()
  | .obj fs => .ok (alookup k fs)
  | _ => .ok none

/-- `x || d` on JSON values (used for `file.name || 'Unknown file'` etc.). -/
def jsOrJ (a : Option Json) (d : Json) : Json :=
  match a with
  | some v => if jsTruthy v then v else d
  | none => d

/-- One attached-file descriptor (lines 359–365). -/
structure FileDesc where
  name : Json
  path : Option Json
  sizeLabel : Json
  question : String
  commit : Option Json

/-- `extractFilesFromQA` (lines 334–371): collect file descriptors from every
Q/A raw content that is (or parses to) an object with a non-empty `files`
array. Parse failures skip the entry; a `null` inside a `files` array throws
(`file.name` on `null`). -/
def extractFilesFromQA (qaDict : List (String × QAEntry)) :
    Except Unit (List FileDesc) :=
  exceptFoldlM
    (fun files entry => do
      let parsed : Option Json :=
        match entry.2.rawContent with
        | some (.obj fs) => some (.obj fs)
        | some (.arr l) => some (.arr l)
        | some (.str s) =>
            let t := strTrim s
            if strStartsWith t "\x7b" && strEndsWith t "\x7d" then jsonParse t else none
        | _ => none
      match parsed with
      | none => pure files
      | some p =>
          match jsGetField p "files" with
          | some (.arr fl) =>
              if fl.length > 0 then do
                let descs ← exceptMapM (fun f => do
                  let n ← jsGetFieldE f "name"
                  let pa ← jsGetFieldE f "path"
                  let sz ← jsGetFieldE f "sizeLabel"
                  pure { name := jsOrJ n (.str "Unknown file"), path := pa,
                         sizeLabel := jsOrJ sz (.str ""), question := entry.1,
                         commit := jsGetField p "commit" : FileDesc }) fl
                pure (files ++ descs)
              else pure files
          | _ => pure files)
    [] qaDict

/-- `bundleEvidenceMap` (lines 385–392): evidence keyed by truthy external id,
later records overriding earlier ones. -/
def buildEvidenceMap (pc : List (String × Policy)) (bundleEvidence : List EvidenceRecord)
    (bps : Option (List PolicyRef)) : List (String × EvidenceRecord) :=
  bundleEvidence.foldl
    (fun m ev =>
      match getEvidenceExternalId pc ev bps with
      | some extId => if extId ≠ "" then assocInsert m extId ev else m
      | none => m)
    []

/-- `bundleEvidenceMap[key]?.artifactContent || null` (lines 412–438). -/
def metaField (m : List (String × EvidenceRecord)) (k : String) : Option Json :=
  match alookup k m with
  | some ev =>
      match ev.artifactContent with
      | some v => if jsTruthy v then some v else none
      | none => none
  | none => none

/-- One model name/version pair from a `ModelVersion` attachment (lines
401–408). -/
structure AttachModel where
  name : Option String
  version : Option String

/-- One table row (`bundleRowData`, lines 449–483). -/
structure Row where
  bundleId : String
  bundleName : Option String
  bundleState : Option String
  bundleCreatedAt : Option String
  bundleCreatedBy : String
  projectName : String
  projectOwner : String
  policyName : String
  policyId : Option String
  attachmentModels : List AttachModel
  modelNames : String
  modelVersions : String
  attachments : List Attachment
  modelId : Option Json
  modelName : Option Json
  modelDescription : Option Json
  modelPurpose : Option Json
  modelStatus : Option Json
  businessLine : Option Json
  businessUser : Option Json
  modelOwner : Option Json
  modelDeveloper : Option Json
  modelValidator : Option Json
  criticality : Option Json
  complexity : Option Json
  modelRiskTier : Option Json
  clearance : Option Json
  monitoringFrequency : Option Json
  validationId : Option Json
  eventType : Option Json
  approvalsCount : Nat
  commentsCount : Nat
  approvals : List Json
  policies : List PolicyRef
  evidence : List EvidenceRecord
  gates : List Json
  stages : List Json
  qaDict : List (String × QAEntry)
  evidenceFiles : List FileDesc

/-- Build the row for one bundle (the body of the `for` loop of `processData`,
lines 379–483). -/
def buildRow (pc : List (String × Policy))
    (evStore : List (String × List EvidenceRecord)) (b : Bundle) :
    Except Unit Row := do
  let bundleEvidence := (alookup b.id evStore).getD []
  let bem := buildEvidenceMap pc bundleEvidence b.policies
  let qaDict ← extractQADictionary pc bundleEvidence b.policies
  let attachmentModels := (b.attachments.getD []).filterMap fun a =>
    if a.type == some "ModelVersion" then
      a.identifier.map (fun i => AttachModel.mk i.name i.version)
    else none
  let evidenceFiles ← extractFilesFromQA qaDict
  pure
    { bundleId := b.id
      bundleName := b.name
      bundleState := b.state
      bundleCreatedAt := b.createdAt
      bundleCreatedBy := jsOrS (b.createdBy.bind (fun c => c.name)) "Unknown"
      projectName := jsOrS b.projectName "Unknown"
      projectOwner := jsOrS b.projectOwner "Unknown"
      policyName := jsOrS b.policyName "Unknown"
      policyId := b.policyId
      attachmentModels := attachmentModels
      modelNames :=
        jsOrS0 (String.intercalate ", " (attachmentModels.map (fun m => m.name.getD ""))) "N/A"
      modelVersions :=
        jsOrS0 (String.intercalate ", " (attachmentModels.map (fun m => m.version.getD ""))) "N/A"
      attachments := b.attachments.getD []
      modelId := metaField bem "model-id"
      modelName := metaField bem "model-name"
      modelDescription := metaField bem "model-description"
      modelPurpose := metaField bem "model-purpose"
      modelStatus := metaField bem "model-status"
      businessLine := metaField bem "business-line"
      businessUser := metaField bem "business-user"
      modelOwner := metaField bem "model-owner"
      modelDeveloper := metaField bem "model-developer"
      modelValidator := metaField bem "model-validator"
      criticality := metaField bem "criticality"
      complexity := metaField bem "complexity"
      modelRiskTier := metaField bem "model-risk-tier"
      clearance := metaField bem "clearance"
      monitoringFrequency := metaField bem "monitoring-frequency"
      validationId := metaField bem "validation-id"
      eventType := metaField bem "event-type"
      approvalsCount := (b.stageApprovals.getD []).length
      commentsCount := b.commentsCount.getD 0
      approvals := b.stageApprovals.getD []
      policies := b.policies.getD []
      evidence := bundleEvidence
      gates := b.gates.getD []
      stages := b.stages.getD []
      qaDict := qaDict
      evidenceFiles := evidenceFiles }

/-- The retention test of lines 485–492: the model name is a string that is
non-empty after trimming and not `'unknown'` lowercased. (The preceding JS
truthiness/`typeof` checks are subsumed: a non-string or absent name fails the
match, and an empty string fails the trim test.) -/
def validModelName (r : Row) : Bool :=
  match r.modelName with
  | some (.str s) => strTrim s != "" && strToLower s != "unknown"
  | _ => false

/-- `a.modelId || ''` followed by `.replace(/\D/g,'')` needs a string: a truthy
non-string model id makes the sort comparator throw. -/
def rowIdStr (r : Row) : Except Unit String :=
  match r.modelId with
  | none => .ok ""
  | some (.str s) => .ok s
  | some v => if jsTruthy v then .error () else .ok ""

/-- `parseInt(id.replace(/\D/g, '')) || 0`: the number formed by the id's
digits, `0` when there are none. -/
def numOf (s : String) : Nat :=
  jpDigitsToNat (s.data.filter Char.isDigit)

/-- The sort comparator of lines 497–512 as a total preorder on (row, id
string) pairs: ascending numeric part, ties by `localeCompare` (modelled as
code-point order; see the module comment). -/
def keyLe (a b : Row × String) : Prop :=
  numOf a.2 < numOf b.2 ∨ (numOf a.2 = numOf b.2 ∧ strLe a.2 b.2 = true)

instance : DecidableRel keyLe := fun a b => by
  unfold keyLe; infer_instance

theorem charListLe_total : ∀ x y : List Char, charListLe x y = true ∨ charListLe y x = true := by
  intro x
  induction x with
  | nil => intro y; exact Or.inl rfl
  | cons a as ih =>
      intro y
      cases y with
      | nil => exact Or.inr rfl
      | cons b bs =>
          rcases lt_trichotomy a b with h | h | h
          · exact Or.inl (by simp [charListLe, h])
          · subst h
            rcases ih bs with h2 | h2
            · exact Or.inl (by simp [charListLe, h2])
            · exact Or.inr (by simp [charListLe, h2])
          · exact Or.inr (by simp [charListLe, h])

theorem charListLe_trans : ∀ x y z : List Char,
    charListLe x y = true → charListLe y z = true → charListLe x z = true := by
  intro x
  induction x with
  | nil => intro y z _ _; rfl
  | cons a as ih =>
      intro y z hxy hyz
      cases y with
      | nil => simp [charListLe] at hxy
      | cons b bs =>
          cases z with
          | nil => simp [charListLe] at hyz
          | cons c cs =>
              by_cases hab : a < b
              · by_cases hbc : b < c
                · simp [charListLe, hab.trans hbc]
                · by_cases hbc2 : b = c
                  · subst hbc2; simp [charListLe, hab]
                  · simp [charListLe, hbc, hbc2] at hyz
              · by_cases hab2 : a = b
                · subst hab2
                  by_cases hbc : a < c
                  · simp [charListLe, hbc]
                  · by_cases hbc2 : a = c
                    · subst hbc2
                      simp [charListLe, lt_irrefl] at hxy hyz ⊢
                      exact ih bs cs hxy hyz
                    · simp [charListLe, hbc, hbc2] at hyz
                · simp [charListLe, hab, hab2] at hxy

theorem strLe_total (a b : String) : strLe a b = true ∨ strLe b a = true :=
  charListLe_total a.data b.data

theorem strLe_trans {a b c : String} (h1 : strLe a b = true) (h2 : strLe b c = true) :
    strLe a c = true :=
  charListLe_trans a.data b.data c.data h1 h2

instance : IsTotal (Row × String) keyLe :=
  ⟨fun a b => by
    rcases Nat.lt_trichotomy (numOf a.2) (numOf b.2) with h | h | h
    · exact Or.inl (Or.inl h)
    · rcases strLe_total a.2 b.2 with h2 | h2
      · exact Or.inl (Or.inr ⟨h, h2⟩)
      · exact Or.inr (Or.inr ⟨h.symm, h2⟩)
    · exact Or.inr (Or.inl h)⟩

instance : IsTrans (Row × String) keyLe :=
  ⟨fun a b c hab hbc => by
    rcases hab with h1 | ⟨h1, h1s⟩
    · rcases hbc with h2 | ⟨h2, _⟩
      · exact Or.inl (h1.trans h2)
      · exact Or.inl (h2 ▸ h1)
    · rcases hbc with h2 | ⟨h2, h2s⟩
      · exact Or.inl (h1 ▸ h2)
      · exact Or.inr ⟨h1.trans h2, strLe_trans h1s h2s⟩⟩

/-- `appState.tableData.sort(...)` (lines 497–512): pair each row with its id
string (throwing as the comparator would on a truthy non-string id), then
stable-sort by the comparator. -/
def sortRows (rows : List Row) : Except Unit (List Row) := do
  let keyed ← exceptMapM (fun r => (rowIdStr r).map (fun s => (r, s))) rows
  pure ((keyed.insertionSort keyLe).map Prod.fst)

/-- One iteration of the `processData` loop: build the bundle's row and push
it when the model name is valid. -/
def processStep (pc : List (String × Policy))
    (evStore : List (String × List EvidenceRecord))
    (acc : List Row) (b : Bundle) : Except Unit (List Row) :=
  (buildRow pc evStore b).map fun row =>
    if validModelName row then acc ++ [row] else acc

/-- `processData` (lines 374–540): build a row per bundle, keep those with a
valid model name, sort. (`appState.qaData` is also populated but only ever
logged, so it is not part of the returned state.) -/
def processData (bundles : List Bundle)
    (evStore : List (String × List EvidenceRecord))
    (pc : List (String × Policy)) : Except Unit (List Row) := do
  let rows ← exceptFoldlM (processStep pc evStore) ([] : List Row) bundles
  sortRows rows

/-- The full pipeline relevant to the table: the fetch-stage bundle filter
(lines 198–201) composed with `processData`. -/
def dashboardTableData (bundles : List Bundle)
    (evStore : List (String × List EvidenceRecord))
    (pc : List (String × Policy)) : Except Unit (List Row) :=
  processData (bundles.filter fetchFilter) evStore pc

/-! ## Q/A pagination (lines 780–792, 912–945) -/

/-- The state `changeQAPage` leaves the controls in. -/
structure QAPageView where
  page : Int
  prevDisabled : Bool
  nextDisabled : Bool
  totalPages : Nat

/-- `changeQAPage` (lines 912–945): page count `Math.ceil(n / 4)`, the new
page clamped to `[0, totalPages - 1]`, previous/next disabled at the
respective ends. -/
def changeQAPage (itemCount : Nat) (current direction : Int) : QAPageView :=
  let totalPages : Nat := (itemCount + 3) / 4
  let p := max 0 (min (current + direction) ((totalPages : Int) - 1))
  { page := p
    prevDisabled := p == 0
    nextDisabled := p == (totalPages : Int) - 1
    totalPages := totalPages }

/-- `renderTable` renders the pagination controls only for more than four Q/A
items (line 780). -/
def qaControlsRendered (itemCount : Nat) : Bool :=
  itemCount > 4

/-! ## Sheets flattening and CSV export (lines 963–1081) -/

/-- `typeof v === 'object'` (which in JS includes `null`). -/
def jsTypeofIsObject : Json → Bool
  | .null => true
  | .arr _ => true
  | .obj _ => true
  | _ => false

/-- `Object.entries(v)`: fields of an object, index/element pairs of an array,
index/character pairs of a string, nothing for other primitives; throws on
`null`. -/
def jsObjectEntries : Json → Except Unit (List (String × Json))
  | .null => .error ()
  | .obj fs => .ok fs
  | .arr l => .ok (l.enum.map (fun p => (toString p.1, p.2)))
  | .str s => .ok (s.data.enum.map (fun p => (toString p.1, Json.str (String.mk [p.2]))))
  | _ => .ok []

/-- The per-entry fragment of the generic-object flattening (lines 1035–1048):
`null` and empty-array values are skipped, arrays join, objects stringify,
primitives print. -/
def genericEntryPart : String × Json → Option String
  | (_, .null) => none
  | (_, .arr []) => none
  | (k, .arr l) => some (k ++ "=" ++ jsArrayJoin l ", ")
  | (k, .obj fs) => some (k ++ "=" ++ jsonStringify (.obj fs))
  | (k, v) => some (k ++ "=" ++ jsToString v)

/-- Flattening of an already-parsed (object/array) value (lines 989–1051). -/
def flattenParsed (p : Json) : Except Unit Json :=
  match p with
  | .arr [] => .ok (.str "")
  | .arr (x :: xs) =>
      if jsTypeofIsObject x then do
        let parts ← exceptMapM (fun item => do
          let es ← jsObjectEntries item
          pure (String.intercalate "; "
            (es.map (fun kv => kv.1 ++ "=" ++ jsonStringify kv.2)))) (x :: xs)
        pure (.str (String.intercalate " | " parts))
      else .ok (.str (jsArrayJoin (x :: xs) ", "))
  | .obj fs =>
      if jsTruthyOpt (alookup "commit" fs) then do
        let commitPart := "commit=" ++ jsToString ((alookup "commit" fs).getD .null)
        let fileParts ←
          match alookup "files" fs with
          | some (.arr fl) =>
              if fl.length > 0 then do
                let names ← exceptMapM (fun f => do
                  let n ← jsGetFieldE f "name"
                  pure (jsOrJ n f)) fl
                pure ["files=" ++ jsArrayJoin names ", "]
              else pure []
          | _ => pure ([] : List String)
        let dirParts :=
          match alookup "directories" fs with
          | some (.arr dl) =>
              if dl.length > 0 then ["directories=" ++ jsArrayJoin dl ", "] else []
          | _ => []
        pure (.str (String.intercalate "; " (commitPart :: (fileParts ++ dirParts))))
      else if jsTruthyOpt (alookup "files" fs) then
        match alookup "files" fs with
        | some (.arr fl) =>
            if fl.length > 0 then do
              let items ← exceptMapM (fun f =>
                if jsTypeofIsObject f then do
                  let n ← jsGetFieldE f "name"
                  let pa ← jsGetFieldE f "path"
                  let sz ← jsGetFieldE f "sizeLabel"
                  let who := jsOrJ n (jsOrJ pa (.str "file"))
                  let size := jsOrJ sz (.str "")
                  pure (Json.str (strTrim (jsToString who ++ " (" ++ jsToString size ++ ")")))
                else pure f) fl
              pure (.str (jsArrayJoin items ", "))
            else .ok (.str "")
        | _ => .ok (.str "")
      else
        .ok (.str (String.intercalate "; " (fs.filterMap genericEntryPart)))
  | other => .ok (.str (jsToString other))

/-- `flattenJSONForSheets` (lines 963–1052): objects/arrays flatten directly;
strings that trim to brace- or bracket-delimited JSON are parsed and
flattened, other strings pass through; other primitives print. -/
def flattenJSONForSheets (value : Json) : Except Unit Json :=
  if jsIsObjectType value then flattenParsed value
  else
    match value with
    | .str s =>
        let t := strTrim s
        if (strStartsWith t "\x7b" && strEndsWith t "\x7d") ||
            (strStartsWith t "[" && strEndsWith t "]") then
          match jsonParse t with
          | some p => flattenParsed p
          | none => .ok (.str s)
        else .ok (.str s)
    | v => .ok (.str (jsToString v))

/-- `.replace(/"/g, '""')` — CSV quote escaping (lines 1066, 1078). -/
def escQuotes (s : String) : String :=
  String.mk (s.data.flatMap fun c => if c = '"' then ['"', '"'] else [c])

/-- One quoted CSV line for a question/answer pair (line 1080). -/
def csvLineOf (p : String × String) : String :=
  "\"" ++ escQuotes p.1 ++ "\",\"" ++ escQuotes p.2 ++ "\"\n"

/-- The cleaned, flattened answer text of one entry (lines 1069–1078): strip
`<br>` (to `" | "`) and bullets, trim, flatten JSON, stringify. Throws when
the stored answer is not a string (no `.replace` on it). -/
def qaCleanAnswer (e : QAEntry) : Except Unit String :=
  match e.answer with
  | .str s =>
      (flattenJSONForSheets
        (.str (strTrim (strReplaceAll (strReplaceAll s "<br>" " | ") "•" "")))).map
        jsToString
  | _ => .error ()

/-- One CSV line of `copyQAToClipboard` (lines 1064–1080). -/
def qaCsvLine (q : String) (e : QAEntry) : Except Unit String :=
  (qaCleanAnswer e).map (fun a => csvLineOf (q, a))

/-- The cleaned question/answer pair an entry exports. -/
def qaCleanPair (p : String × QAEntry) : Except Unit (String × String) :=
  (qaCleanAnswer p.2).map (fun a => (p.1, a))

/-- The CSV text for a list of already-cleaned pairs: the fixed header plus
one quoted line per pair. -/
def renderCsv (pairs : List (String × String)) : String :=
  "Question,Answer\n" ++ String.join (pairs.map csvLineOf)

/-- The CSV text `copyQAToClipboard` builds (lines 1061–1081). -/
def copyQACsv (qaDict : List (String × QAEntry)) : Except Unit String := do
  let lines ← exceptMapM (fun p => qaCsvLine p.1 p.2) qaDict
  .ok ("Question,Answer\n" ++ String.join lines)

/-! ## The hallucination-score extractor (lines 543–583) -/

/-- Per-item outcome inside the array case: `some (some q)` returns the score,
`some none` models an exception reaching the outer catch (which makes the
whole function return `null`), `none` continues with the next item. -/
def emhItem (item : Json) : Option (Option ℚ) :=
  let raw : Option Json :=
    match item with
    | .obj fs => alookup "Hallucination Score" fs
    | _ => none
  match raw with
  | none => none
  | some r =>
      if !jsTruthy r then none
      else
        match jsonParse (jsToString r) with
        | some p =>
            match jsGetField p "value" with
            | some (.num q) => some (some q)
            | _ =>
                match jsGetField p "hallucination_score" with
                | some (.num q) => some (some q)
                | _ => none
        | none =>
            match r with
            | .str s =>
                match firstNumMatch s with
                | some m => some (some (parseDecimal m))
                | none => none
            | _ => some none

/-- The `for` loop of the array case (lines 548–563). -/
def emhScan : List Json → Option ℚ
  | [] => none
  | item :: rest =>
      match emhItem item with
      | some (some q) => some q
      | some none => none
      | none => emhScan rest

/-- `extractModelHallucination` (lines 543–583): arrays scan their items'
`"Hallucination Score"` fields (JSON-parsing each, else regex-matching),
objects read a numeric `hallucination_score`, strings regex-match the first
number; anything else (or any caught exception) yields `null`. For an array
the object/string cases that follow the loop can never fire, so the
fall-through is not modelled separately. -/
def extractModelHallucination (c : Json) : Option ℚ :=
  if !jsTruthy c then none
  else
    match c with
    | .arr items => emhScan items
    | .obj fs =>
        match alookup "hallucination_score" fs with
        | some (.num q) => some q
        | _ => none
    | .str s => (firstNumMatch s).map parseDecimal
    | _ => none

/-! ## CSV splitting (the specification's round-trip reading) -/

/-- A quoted CSV field after its opening quote: a doubled quote stands for a
literal quote, the next single quote closes the field (the specification's
"unescaped … quotes"). -/
def csvQuoted : List Char → Option (List Char × List Char)
  | [] => none
  | c :: rest =>
    if c = '"' then
      match rest with
      | r2 :: rest2 =>
          if r2 = '"' then (csvQuoted rest2).map (fun p => ('"' :: p.1, p.2))
          else some ([], r2 :: rest2)
      | [] => some ([], [])
    else (csvQuoted rest).map (fun p => (c :: p.1, p.2))

/-- One CSV record: comma-separated fields, each quoted or bare, ending at an
unescaped line break or the end of the text. -/
def csvRecord (fuel : Nat) (cs : List Char) : Option (List String × List Char) :=
  match fuel with
  | 0 => none
  | fuel + 1 =>
    let fieldRes : Option (String × List Char) :=
      match cs with
      | '"' :: rest => (csvQuoted rest).map (fun p => (String.mk p.1, p.2))
      | _ =>
          some (String.mk (cs.takeWhile (fun c => !(c == ',') && !(c == '\n'))),
            cs.dropWhile (fun c => !(c == ',') && !(c == '\n')))
    match fieldRes with
    | none => none
    | some (f, rest) =>
        match rest with
        | ',' :: r2 => (csvRecord fuel r2).map (fun p => (f :: p.1, p.2))
        | '\n' :: r2 => some ([f], r2)
        | [] => some ([f], [])
        | _ => none

/-- Split CSV text on unescaped commas and line breaks, unescaping doubled
quotes inside quoted fields — the re-splitting the specification's round-trip
property describes. -/
def csvRecordsAux (fuel : Nat) (cs : List Char) : Option (List (List String)) :=
  match fuel with
  | 0 => none
  | fuel + 1 =>
    match cs with
    | [] => some []
    | _ =>
        match csvRecord (cs.length + 1) cs with
        | none => none
        | some (fields, rest) => (csvRecordsAux fuel rest).map (fun rs => fields :: rs)

/-- Split a CSV document into its records. -/
def csvSplit (s : String) : Option (List (List String)) :=
  csvRecordsAux (s.length + 1) s.data

/-! ## Specification-side definitions for the refinement claims -/

/-- Is an `Except` a success? -/
def exceptOk {ε α : Type} : Except ε α → Bool
  | .ok _ => true
  | .error _ => false

/-- The answer mapping exactly as the specification's claim words it:
`null`/absent → `"N/A"`; an object **with a `label` field** → that field's
value; an array → elements joined with `", "`; any other object → compact
JSON; anything else → string conversion; then the multi-line bullet step on
text results. -/
def formatAnswerClaim (content : Option Json) : Json :=
  let a : Json :=
    match content with
    | none => .str "N/A"
    | some .null => .str "N/A"
    | some (.obj fs) =>
        match alookup "label" fs with
        | some lv => lv
        | none => .str (jsonStringify (.obj fs))
    | some (.arr l) => .str (jsArrayJoin l ", ")
    | some v => .str (jsToString v)
  match a with
  | .str s => if strContainsChar s '\n' then .str (bulletize s) else .str s
  | x => x

/-- The amended answer mapping: as the claim, except that only a **truthy**
`label` value wins (an object whose `label` is `""`, `0`, `false` or `null`
serializes as compact JSON like any other object). -/
def formatAnswerAmended (content : Option Json) : Json :=
  let a : Json :=
    match content with
    | none => .str "N/A"
    | some .null => .str "N/A"
    | some (.obj fs) =>
        match alookup "label" fs with
        | some lv => if jsTruthy lv then lv else .str (jsonStringify (.obj fs))
        | none => .str (jsonStringify (.obj fs))
    | some (.arr l) => .str (jsArrayJoin l ", ")
    | some v => .str (jsToString v)
  match a with
  | .str s => if strContainsChar s '\n' then .str (bulletize s) else .str s
  | x => x

/-- Question resolution as the specification's claim words it: search the
bundle's associated policies' stages (in document order) for **an** evidence
definition matching the record's evidence id — the first one found — then
`name`, falling back to `externalId`, falling back to the evidence id,
falling back to `"Unknown"` (with the source's `""`-is-absent semantics). -/
def resolveQuestionClaim (pc : List (String × Policy)) (ev : EvidenceRecord)
    (bps : Option (List PolicyRef)) : String :=
  match findEvidenceDef pc bps ev.evidenceId with
  | some d => jsOrS d.name (jsOrS d.externalId (jsOrS ev.evidenceId "Unknown"))
  | none => jsOrS ev.evidenceId "Unknown"

/-- All matching definitions, one per policy reference that has one (first
matching stage, first matching entry), in reference order. -/
def matchedDefs (pc : List (String × Policy)) (bps : Option (List PolicyRef))
    (evId : Option String) : List EvidenceDef :=
  (bps.getD []).filterMap fun ref =>
    (lookupPolicy pc ref).bind (fun fp => findDefInPolicy fp evId)

/-- The amended question resolution: start from the first matching
definition's external id (falling back to the evidence id, then `"Unknown"`),
then let **each** policy reference with a matching definition override in
order with `name || externalId || previous`. -/
def resolveQuestionAmended (pc : List (String × Policy)) (ev : EvidenceRecord)
    (bps : Option (List PolicyRef)) : String :=
  (matchedDefs pc bps ev.evidenceId).foldl
    (fun q d => jsOrS d.name (jsOrS d.externalId q))
    (jsOrS (getEvidenceExternalId pc ev bps) (jsOrS ev.evidenceId "Unknown"))

/-- The id-string key actually used to sort a row (empty for an absent or
falsy model id; rows that would make the comparator throw never reach a
sorted table). -/
def rowKey (r : Row) : String :=
  match rowIdStr r with
  | .ok s => s
  | .error _ => ""

/-- The Q/A entries of an evidence list, in order (each independent of the
dictionary state). -/
def qaEntriesOf (pc : List (String × Policy)) (bps : Option (List PolicyRef))
    (evList : List EvidenceRecord) : Except Unit (List QAEntry) :=
  exceptMapM (qaEntryOf pc bps) evList

/-- Folding Q/A entries into the dictionary. -/
def qaBuildDict (es : List QAEntry) : List (String × QAEntry) :=
  es.foldl (fun d e => assocInsert d e.question e) []


/-! ## Concrete fixtures used by the witnesses -/

/-- A sample compute-policy response with one draft and one result. -/
def w2Resp : ComputeResp :=
  { policy := some { id := "P1", stages := none }
    drafts := some [{ evidenceId := some "d1",
                      artifactContent := some (.str "draft value"),
                      source := some "draft" }]
    results := some [{ evidenceId := some "e1",
                       artifactContent := some (.str "yes"),
                       source := none }] }

/-- The results list of `w2Resp`. -/
def w2Results : List EvidenceRecord :=
  [{ evidenceId := some "e1", artifactContent := some (.str "yes"), source := none }]

/-- Two evidence records that resolve to the same question (their shared
evidence id, with no policies attached). -/
def w10EvList : List EvidenceRecord :=
  [{ evidenceId := some "x", artifactContent := some (.str "a1"), source := none },
   { evidenceId := some "x", artifactContent := some (.str "a2"), source := none }]

/-- The Q/A entries `w10EvList` produces. -/
def w10Es : List QAEntry :=
  [{ question := "x", answer := .str "a1", evidenceId := some "x",
     externalId := none, source := none, rawContent := some (.str "a1") },
   { question := "x", answer := .str "a2", evidenceId := some "x",
     externalId := none, source := none, rawContent := some (.str "a2") }]

/-- Two policies both defining the evidence id `"e"`: the first with an empty
name and external id `"extA"`, the second with name `"NameB"`. -/
def w5PolA : Policy :=
  { id := "pA"
    stages := some [⟨some [⟨some "e", some "", some "extA"⟩]⟩] }

def w5PolB : Policy :=
  { id := "pB"
    stages := some [⟨some [⟨some "e", some "NameB", some "extB"⟩]⟩] }

def w5Cache : List (String × Policy) := [("pA", w5PolA), ("pB", w5PolB)]

def w5Refs : Option (List PolicyRef) :=
  some [{ policyId := some "pA", policyName := none },
        { policyId := some "pB", policyName := none }]

def w5Ev : EvidenceRecord :=
  { evidenceId := some "e", artifactContent := none, source := none }

/-- A minimal non-archived bundle with the hardcoded policy attached. -/
def w6Bundle (i : String) : Bundle :=
  { id := i, name := none, state := some "Active", createdAt := none,
    createdBy := none, projectName := none, projectOwner := none,
    policyName := none, policyId := none,
    policies := some [{ policyId := some HARDCODED_POLICY_ID, policyName := none }],
    attachments := none, stageApprovals := none, commentsCount := none,
    gates := none, stages := none }

/-- A fetch scenario in which every bundle succeeds. -/
def w6f : Bundle → Except Unit ComputeResp := fun _ => .ok w2Resp

/-- The same scenario except the bundle with id `"b2"` fails. -/
def w6g : Bundle → Except Unit ComputeResp :=
  fun b => if b.id = "b2" then .error () else .ok w2Resp

/-- A policy (under the hardcoded id) defining evidence `"e1"` with external
id `"model-name"`. -/
def w1Policy : Policy :=
  { id := HARDCODED_POLICY_ID
    stages := some [⟨some [⟨some "e1", some "Model Name", some "model-name"⟩]⟩] }

def w1Cache : List (String × Policy) := [(HARDCODED_POLICY_ID, w1Policy)]

/-- An active bundle attached to the hardcoded policy. -/
def w1Bundle : Bundle :=
  { id := "b1", name := some "B", state := some "Active", createdAt := none,
    createdBy := none, projectName := none, projectOwner := none,
    policyName := none, policyId := none,
    policies := some [{ policyId := some HARDCODED_POLICY_ID, policyName := some "P" }],
    attachments := none, stageApprovals := none, commentsCount := none,
    gates := none, stages := none }

def w1Rec : EvidenceRecord :=
  { evidenceId := some "e1", artifactContent := some (.str "My Model"),
    source := some "result" }

def w1Ev : List (String × List EvidenceRecord) := [("b1", [w1Rec])]

def w1Entry : QAEntry :=
  { question := "Model Name", answer := .str "My Model", evidenceId := some "e1",
    externalId := some "model-name", source := some "result",
    rawContent := some (.str "My Model") }

/-- The row the pipeline builds for `w1Bundle`. -/
def w1Row : Row :=
  { bundleId := "b1", bundleName := some "B", bundleState := some "Active",
    bundleCreatedAt := none, bundleCreatedBy := "Unknown",
    projectName := "Unknown", projectOwner := "Unknown", policyName := "Unknown",
    policyId := none, attachmentModels := [], modelNames := "N/A",
    modelVersions := "N/A", attachments := [], modelId := none,
    modelName := some (.str "My Model"), modelDescription := none,
    modelPurpose := none, modelStatus := none, businessLine := none,
    businessUser := none, modelOwner := none, modelDeveloper := none,
    modelValidator := none, criticality := none, complexity := none,
    modelRiskTier := none, clearance := none, monitoringFrequency := none,
    validationId := none, eventType := none, approvalsCount := 0,
    commentsCount := 0, approvals := [],
    policies := [{ policyId := some HARDCODED_POLICY_ID, policyName := some "P" }],
    evidence := [w1Rec], gates := [], stages := [],
    qaDict := [("Model Name", w1Entry)], evidenceFiles := [] }

/-- A policy defining both `model-name` and `model-id` evidence. -/
def w3Policy : Policy :=
  { id := HARDCODED_POLICY_ID
    stages := some [⟨some [⟨some "e1", some "Model Name", some "model-name"⟩,
                           ⟨some "e2", some "Model Id", some "model-id"⟩]⟩] }

def w3Cache : List (String × Policy) := [(HARDCODED_POLICY_ID, w3Policy)]

def w3Bundle (i : String) : Bundle :=
  { id := i, name := some "B", state := some "Active", createdAt := none,
    createdBy := none, projectName := none, projectOwner := none,
    policyName := none, policyId := none,
    policies := some [{ policyId := some HARDCODED_POLICY_ID, policyName := some "P" }],
    attachments := none, stageApprovals := none, commentsCount := none,
    gates := none, stages := none }

def w3Recs (nm mid : String) : List EvidenceRecord :=
  [{ evidenceId := some "e1", artifactContent := some (.str nm), source := some "result" },
   { evidenceId := some "e2", artifactContent := some (.str mid), source := some "result" }]

def w3Ev : List (String × List EvidenceRecord) :=
  [("b1", w3Recs "Alpha" "M2"), ("b2", w3Recs "Beta" "M1")]

def w3EntryName (nm : String) : QAEntry :=
  { question := "Model Name", answer := .str nm, evidenceId := some "e1",
    externalId := some "model-name", source := some "result",
    rawContent := some (.str nm) }

def w3EntryId (mid : String) : QAEntry :=
  { question := "Model Id", answer := .str mid, evidenceId := some "e2",
    externalId := some "model-id", source := some "result",
    rawContent := some (.str mid) }

/-- The row built for a `w3Bundle` with the given name/id evidence. -/
def w3Row (i nm mid : String) : Row :=
  { bundleId := i, bundleName := some "B", bundleState := some "Active",
    bundleCreatedAt := none, bundleCreatedBy := "Unknown",
    projectName := "Unknown", projectOwner := "Unknown", policyName := "Unknown",
    policyId := none, attachmentModels := [], modelNames := "N/A",
    modelVersions := "N/A", attachments := [], modelId := some (.str mid),
    modelName := some (.str nm), modelDescription := none,
    modelPurpose := none, modelStatus := none, businessLine := none,
    businessUser := none, modelOwner := none, modelDeveloper := none,
    modelValidator := none, criticality := none, complexity := none,
    modelRiskTier := none, clearance := none, monitoringFrequency := none,
    validationId := none, eventType := none, approvalsCount := 0,
    commentsCount := 0, approvals := [],
    policies := [{ policyId := some HARDCODED_POLICY_ID, policyName := some "P" }],
    evidence := w3Recs nm mid, gates := [], stages := [],
    qaDict := [("Model Name", w3EntryName nm), ("Model Id", w3EntryId mid)],
    evidenceFiles := [] }

/-- An entry whose answer carries the bullet/`<br>` markup the formatter
produces for multi-line content. -/
def w8Entry : QAEntry :=
  { question := "Q", answer := .str "• a<br>• b", evidenceId := none,
    externalId := none, source := none, rawContent := none }

/-- A plain single-line entry. -/
def w8Plain : QAEntry :=
  { question := "Q1", answer := .str "plain answer", evidenceId := none,
    externalId := none, source := none, rawContent := none }

/-! ## Shared lemmas -/

theorem alookup_cons {α : Type} (q k : String) (v : α) (m : List (String × α)) :
    alookup q ((k, v) :: m) = if q = k then some v else alookup q m := rfl

theorem alookup_of_any_eq_false {α : Type} (k : String) :
    ∀ m : List (String × α), m.any (fun p => p.1 == k) = false → alookup k m = none := by
  intro m
  induction m with
  | nil => intro _; rfl
  | cons p m ih =>
      intro h
      simp only [List.any_cons, Bool.or_eq_false_iff] at h
      obtain ⟨h1, h2⟩ := h
      obtain ⟨a, b⟩ := p
      rw [alookup_cons, if_neg, ih h2]
      exact fun hk => by simp [hk] at h1

theorem alookup_append_single {α : Type} (k : String) (v : α) (q : String) :
    ∀ m : List (String × α),
      alookup q (m ++ [(k, v)]) = (alookup q m).or (if q = k then some v else none) := by
  intro m
  induction m with
  | nil =>
      by_cases h : q = k <;> simp [alookup, h]
  | cons p m ih =>
      obtain ⟨a, b⟩ := p
      by_cases h : q = a
      · simp [alookup_cons, h]
      · simp [alookup_cons, h, ih]

theorem alookup_mapReplace {α : Type} (k : String) (v : α) (q : String) :
    ∀ m : List (String × α),
      alookup q (m.map (fun p => if p.1 == k then (k, v) else p)) =
        if q = k then (if m.any (fun p => p.1 == k) then some v else none)
        else alookup q m := by
  intro m
  induction m with
  | nil => by_cases h : q = k <;> simp [alookup, h]
  | cons p m ih =>
      obtain ⟨a, b⟩ := p
      by_cases hp : a = k
      · have hb : ((a, b).1 == k) = true := by simp [hp]
        by_cases hq : q = k
        · simp [hb, alookup_cons, hq, hp]
        · simp only [List.map_cons, hb, if_true, alookup_cons, if_neg hq, ih,
            List.any_cons, hb, Bool.true_or, if_neg (hp ▸ hq : ¬q = a)]
      · have hb : ((a, b).1 == k) = false := by simp [hp]
        by_cases hq : q = a
        · have hqk : ¬q = k := fun h => hp (hq ▸ h)
          subst hq
          simp [hb, alookup_cons, ih, hqk, hp]
        · simp only [List.map_cons, hb, Bool.false_eq_true, if_false, alookup_cons,
            if_neg hq, ih, List.any_cons, hb, Bool.false_or]

theorem alookup_assocInsert {α : Type} (k : String) (v : α) (q : String)
    (m : List (String × α)) :
    alookup q (assocInsert m k v) = if q = k then some v else alookup q m := by
  unfold assocInsert
  by_cases h : m.any (fun p => p.1 == k)
  · simp only [h, if_true, alookup_mapReplace]
  · simp only [Bool.not_eq_true] at h
    simp only [h, Bool.false_eq_true, if_false, alookup_append_single]
    by_cases hq : q = k
    · simp [hq, alookup_of_any_eq_false k m h]
    · cases hm : alookup q m <;> simp [hq, Option.or, hm]

theorem length_assocInsert_le {α : Type} (k : String) (v : α)
    (m : List (String × α)) :
    (assocInsert m k v).length ≤ m.length + 1 := by
  unfold assocInsert
  by_cases h : m.any (fun p => p.1 == k) <;> simp [h]

theorem exceptMapM_ok_mem {α β : Type} (f : α → Except Unit β) :
    ∀ (l : List α) (l2 : List β), exceptMapM f l = .ok l2 →
      ∀ x ∈ l2, ∃ a ∈ l, f a = .ok x := by
  intro l
  induction l with
  | nil =>
      intro l2 h x hx
      simp only [exceptMapM, Except.ok.injEq] at h
      subst h; cases hx
  | cons a l ih =>
      intro l2 h x hx
      cases ha : f a with
      | error e => simp [exceptMapM, ha] at h
      | ok b =>
          cases hl : exceptMapM f l with
          | error e => simp [exceptMapM, ha, hl] at h
          | ok bs =>
              simp only [exceptMapM, ha, hl, Except.ok.injEq] at h
              subst h
              rcases List.mem_cons.mp hx with rfl | hx2
              · exact ⟨a, List.mem_cons_self a l, ha⟩
              · obtain ⟨a2, ha2, hfa2⟩ := ih bs hl x hx2
                exact ⟨a2, List.mem_cons_of_mem a ha2, hfa2⟩

theorem exceptMapM_ok_length {α β : Type} (f : α → Except Unit β) :
    ∀ (l : List α) (l2 : List β), exceptMapM f l = .ok l2 → l2.length = l.length := by
  intro l
  induction l with
  | nil =>
      intro l2 h
      simp only [exceptMapM, Except.ok.injEq] at h
      subst h; rfl
  | cons a l ih =>
      intro l2 h
      cases ha : f a with
      | error e => simp [exceptMapM, ha] at h
      | ok b =>
          cases hl : exceptMapM f l with
          | error e => simp [exceptMapM, ha, hl] at h
          | ok bs =>
              simp only [exceptMapM, ha, hl, Except.ok.injEq] at h
              subst h
              simp [ih bs hl]

theorem exceptMapM_ok_proj {α β : Type} (f : α → Except Unit β) (g : β → α)
    (hg : ∀ a b, f a = .ok b → g b = a) :
    ∀ (l : List α) (l2 : List β), exceptMapM f l = .ok l2 → l2.map g = l := by
  intro l
  induction l with
  | nil =>
      intro l2 h
      simp only [exceptMapM, Except.ok.injEq] at h
      subst h; rfl
  | cons a l ih =>
      intro l2 h
      cases ha : f a with
      | error e => simp [exceptMapM, ha] at h
      | ok b =>
          cases hl : exceptMapM f l with
          | error e => simp [exceptMapM, ha, hl] at h
          | ok bs =>
              simp only [exceptMapM, ha, hl, Except.ok.injEq] at h
              subst h
              simp [hg a b ha, ih bs hl]

/-! ## C9 — hallucination-score extraction examples -/

/-- **C9**: the numeric-score extraction maps the evidence content object
`{"hallucination_score": 0.08}` to the number `0.08`, and the evidence
content string `"score: 0.12 approx"` to `0.12`. -/
theorem c9_score_extraction_examples :
    extractModelHallucination (.obj [("hallucination_score", .num (0.08 : ℚ))]) =
      some (0.08 : ℚ) ∧
    extractModelHallucination (.str "score: 0.12 approx") = some (0.12 : ℚ) := by
  constructor
  · rfl
  · have h1 : (mkRat 12 100 : ℚ) = 0.12 := by rw [Rat.mkRat_eq_div]; norm_num
    rw [← h1]
    decide

/-! ## C2 — compute-policy evidence normalization -/

/-- **C2**: for every compute-policy response, the normalizer outputs exactly
the response's results list with every entry tagged `source = 'result'`
(element for element, same length), drafts contribute nothing, and that list
is what gets stored for the bundle. -/
theorem c2_normalizer_results_verbatim (data : ComputeResp) (rs : List EvidenceRecord)
    (h : data.results = some rs) :
    (normalizeComputeEvidence data).length = rs.length ∧
    (∀ i : Nat, (normalizeComputeEvidence data)[i]? =
      (rs[i]?).map (fun r => { r with source := some "result" })) ∧
    (∀ drafts, normalizeComputeEvidence { data with drafts := drafts } =
      normalizeComputeEvidence data) ∧
    (∀ st b, alookup b.id (applyFetch st b (.ok data)).evidence =
      some (normalizeComputeEvidence data)) := by
  refine ⟨?_, ?_, ?_, ?_⟩
  · simp [normalizeComputeEvidence, h]
  · intro i
    simp [normalizeComputeEvidence, h]
  · intro drafts
    simp [normalizeComputeEvidence]
  · intro st b
    cases hp : data.policy <;>
      simp [applyFetch, hp, alookup_assocInsert]

/-- Witness for C2 at the concrete response `w2Resp`. -/
theorem c2_normalizer_witness :
    w2Resp.results = some w2Results ∧
    ((normalizeComputeEvidence w2Resp).length = w2Results.length ∧
      (∀ i : Nat, (normalizeComputeEvidence w2Resp)[i]? =
        (w2Results[i]?).map (fun r => { r with source := some "result" })) ∧
      (∀ drafts, normalizeComputeEvidence { w2Resp with drafts := drafts } =
        normalizeComputeEvidence w2Resp) ∧
      (∀ st b, alookup b.id (applyFetch st b (.ok w2Resp)).evidence =
        some (normalizeComputeEvidence w2Resp))) :=
  ⟨rfl, c2_normalizer_results_verbatim w2Resp w2Results rfl⟩

/-! ## C7 — Q/A pagination -/

/-- **C7**: for `n` Q/A items with page size 4 (and `n > 4`, so the controls
are rendered), the displayed page count is `⌈n / 4⌉`, "previous" is disabled
iff the clamped current page is 0, and "next" is disabled iff it is the last
page. -/
theorem c7_pagination (n : Nat) (current direction : Int) (h : 4 < n) :
    qaControlsRendered n = true ∧
    ((changeQAPage n current direction).totalPages : Int) = ⌈(n : ℚ) / 4⌉ ∧
    ((changeQAPage n current direction).prevDisabled = true ↔
      (changeQAPage n current direction).page = 0) ∧
    ((changeQAPage n current direction).nextDisabled = true ↔
      (changeQAPage n current direction).page =
        ((changeQAPage n current direction).totalPages : Int) - 1) := by
  refine ⟨by simp [qaControlsRendered, h], ?_, ?_, ?_⟩
  · have hdm := Nat.div_add_mod (n + 3) 4
    have hr : (n + 3) % 4 < 4 := Nat.mod_lt _ (by norm_num)
    set q := (n + 3) / 4 with hq
    have hq1 : 4 * q ≤ n + 3 := by omega
    have hq2 : n + 3 < 4 * q + 4 := by omega
    have hceil : ⌈(n : ℚ) / 4⌉ = (q : Int) := by
      rw [Int.ceil_eq_iff]
      constructor
      · rw [lt_div_iff₀ (by norm_num : (0 : ℚ) < 4)]
        have h4 : ((4 * q : Nat) : ℚ) ≤ ((n + 3 : Nat) : ℚ) := by exact_mod_cast hq1
        push_cast at h4 ⊢
        linarith
      · rw [div_le_iff₀ (by norm_num : (0 : ℚ) < 4)]
        have hq3 : n ≤ 4 * q := by omega
        have h4 : ((n : Nat) : ℚ) ≤ ((4 * q : Nat) : ℚ) := by exact_mod_cast hq3
        push_cast at h4 ⊢
        linarith
    rw [hceil]
    simp only [changeQAPage]
  · simp [changeQAPage]
  · simp [changeQAPage]

/-- Witness for C7 at nine items, page 0, direction "next". -/
theorem c7_pagination_witness :
    4 < 9 ∧
    (qaControlsRendered 9 = true ∧
      ((changeQAPage 9 0 1).totalPages : Int) = ⌈(9 : ℚ) / 4⌉ ∧
      ((changeQAPage 9 0 1).prevDisabled = true ↔ (changeQAPage 9 0 1).page = 0) ∧
      ((changeQAPage 9 0 1).nextDisabled = true ↔
        (changeQAPage 9 0 1).page = ((changeQAPage 9 0 1).totalPages : Int) - 1)) :=
  ⟨by decide, c7_pagination 9 0 1 (by decide)⟩

/-! ## C10 — the Q/A dictionary is keyed by question, last record wins -/

theorem extractQAD_eq_buildDict (pc : List (String × Policy))
    (bps : Option (List PolicyRef)) :
    ∀ (evList : List EvidenceRecord) (d : List (String × QAEntry)),
      exceptFoldlM
          (fun d ev => (qaEntryOf pc bps ev).map fun e => assocInsert d e.question e)
          d evList =
        (exceptMapM (qaEntryOf pc bps) evList).map
          (fun es => es.foldl (fun d e => assocInsert d e.question e) d) := by
  intro evList
  induction evList with
  | nil => intro d; rfl
  | cons ev l ih =>
      intro d
      cases he : qaEntryOf pc bps ev with
      | error e => simp [exceptFoldlM, exceptMapM, he, Except.map]
      | ok e =>
          have hrec := ih (assocInsert d e.question e)
          cases hl : exceptMapM (qaEntryOf pc bps) l with
          | error e2 =>
              rw [hl] at hrec
              simp only [Except.map] at hrec
              simp only [exceptFoldlM, exceptMapM, he, hl, Except.map]
              exact hrec
          | ok es =>
              rw [hl] at hrec
              simp only [Except.map] at hrec
              simp only [exceptFoldlM, exceptMapM, he, hl, Except.map, List.foldl_cons]
              exact hrec

theorem alookup_qaBuildDict (q : String) :
    ∀ es : List QAEntry,
      alookup q (qaBuildDict es) = (es.filter (fun e => e.question == q)).getLast? := by
  intro es
  induction es using List.reverseRecOn with
  | nil => rfl
  | append_singleton es e ih =>
      have hfold : qaBuildDict (es ++ [e]) =
          assocInsert (qaBuildDict es) e.question e := by
        simp [qaBuildDict, List.foldl_append]
      rw [hfold, alookup_assocInsert]
      by_cases h : q = e.question
      · simp [List.filter_append, h]
      · have hb : (e.question == q) = false := by
          simp [beq_eq_false_iff_ne]
          exact fun hc => h hc.symm
        simp [List.filter_append, hb, h, ih]

theorem length_qaBuildDict_le :
    ∀ es : List QAEntry, (qaBuildDict es).length ≤ es.length := by
  intro es
  induction es using List.reverseRecOn with
  | nil => simp [qaBuildDict]
  | append_singleton es e ih =>
      have hfold : qaBuildDict (es ++ [e]) =
          assocInsert (qaBuildDict es) e.question e := by
        simp [qaBuildDict, List.foldl_append]
      rw [hfold]
      calc (assocInsert (qaBuildDict es) e.question e).length
          ≤ (qaBuildDict es).length + 1 := length_assocInsert_le _ _ _
        _ ≤ es.length + 1 := by omega
        _ = (es ++ [e]).length := by simp

/-- **C10** (implicit): the Q/A dictionary is keyed by resolved question text,
so when several evidence records of one bundle resolve to the same question,
only the last record's entry remains under that key, and the dictionary can
be shorter than the evidence list. -/
theorem c10_qa_dict_last_wins (pc : List (String × Policy))
    (bps : Option (List PolicyRef)) (evList : List EvidenceRecord)
    (es : List QAEntry) (h : qaEntriesOf pc bps evList = .ok es) :
    extractQADictionary pc evList bps = .ok (qaBuildDict es) ∧
    (∀ q, alookup q (qaBuildDict es) =
      (es.filter (fun e => e.question == q)).getLast?) ∧
    es.length = evList.length ∧
    (qaBuildDict es).length ≤ evList.length := by
  have hlen : es.length = evList.length := exceptMapM_ok_length _ _ _ h
  refine ⟨?_, fun q => alookup_qaBuildDict q es, hlen, ?_⟩
  · rw [extractQADictionary, extractQAD_eq_buildDict]
    rw [qaEntriesOf] at h
    rw [h]
    rfl
  · calc (qaBuildDict es).length ≤ es.length := length_qaBuildDict_le es
      _ = evList.length := hlen

/-- Witness for C10: two records sharing the question `"x"`; the dictionary
keeps only the second entry and has one key for two records. -/
theorem c10_qa_dict_witness :
    qaEntriesOf [] none w10EvList = .ok w10Es ∧
    (extractQADictionary [] w10EvList none = .ok (qaBuildDict w10Es) ∧
      (∀ q, alookup q (qaBuildDict w10Es) =
        (w10Es.filter (fun e => e.question == q)).getLast?) ∧
      w10Es.length = w10EvList.length ∧
      (qaBuildDict w10Es).length ≤ w10EvList.length) :=
  ⟨by rfl, c10_qa_dict_last_wins [] none w10EvList w10Es (by rfl)⟩

/-! ## C4 — answer formatting (corrected: only a *truthy* `label` wins) -/

/-- Counterexample to C4 as stated: the object `{"label": ""}` **has** a
`label` field, so the claim maps it to `""`; the code's `if (answer.label)`
treats the empty string as falsy and serializes the whole object instead. -/
theorem c4_counterexample :
    formatAnswer (some (.obj [("label", .str "")])) =
      .ok (.str "\x7b\"label\":\"\"\x7d") ∧
    formatAnswerClaim (some (.obj [("label", .str "")])) = .str "" ∧
    formatAnswer (some (.obj [("label", .str "")])) ≠
      .ok (formatAnswerClaim (some (.obj [("label", .str "")]))) := by
  refine ⟨by rfl, by rfl, ?_⟩
  intro hc
  have h1 : formatAnswer (some (.obj [("label", .str "")])) =
      .ok (.str "\x7b\"label\":\"\"\x7d") := by rfl
  have h2 : formatAnswerClaim (some (.obj [("label", .str "")])) = .str "" := by rfl
  rw [h1, h2] at hc
  injection hc with h3
  injection h3 with h4
  exact absurd h4 (by decide)

/-- **C4** (amended): the formatted answer is the claimed function of
`artifactContent` with the `label` rule restricted to truthy label values —
whenever the formatter does not throw (`exceptOk`), it returns exactly the
amended mapping. (It throws only when a truthy non-text `label` value
reaches `.includes`/`.split`.) -/
theorem json_str_ite {c : Prop} [Decidable c] (x y : String) :
    Json.str (if c then x else y) = if c then Json.str x else Json.str y := by
  split <;> rfl

theorem c4_answer_formatting_amended (c : Option Json)
    (h : exceptOk (formatAnswer c) = true) :
    formatAnswer c = .ok (formatAnswerAmended c) := by
  cases c with
  | none => rfl
  | some v =>
      cases v with
      | null => rfl
      | bool b => cases b <;> rfl
      | num q => simp [formatAnswer, formatAnswerAmended, jsIsObjectType, json_str_ite]
      | str s => simp [formatAnswer, formatAnswerAmended, jsIsObjectType, json_str_ite]
      | arr l =>
          simp [formatAnswer, formatAnswerAmended, jsGetField, jsIsObjectType,
            json_str_ite]
      | obj fs =>
          cases hl : alookup "label" fs with
          | none =>
              simp [formatAnswer, formatAnswerAmended, jsGetField, jsIsObjectType, hl,
                json_str_ite]
          | some lv =>
              by_cases ht : jsTruthy lv
              · cases lv with
                | str s =>
                    simp [formatAnswer, formatAnswerAmended, jsGetField,
                      jsIsObjectType, hl, ht, json_str_ite]
                | arr l2 =>
                    by_cases hnl : l2.any (jsIsStr "\n")
                    · exfalso
                      simp [formatAnswer, jsGetField, jsIsObjectType, hl, ht, hnl,
                        exceptOk] at h
                    · simp [formatAnswer, formatAnswerAmended, jsGetField,
                        jsIsObjectType, hl, ht, hnl]
                | null => simp [jsTruthy] at ht
                | bool b =>
                    exfalso
                    simp [formatAnswer, jsGetField, jsIsObjectType, hl, ht,
                      exceptOk] at h
                | num q =>
                    exfalso
                    simp [formatAnswer, jsGetField, jsIsObjectType, hl, ht,
                      exceptOk] at h
                | obj fs2 =>
                    exfalso
                    simp [formatAnswer, jsGetField, jsIsObjectType, hl, ht,
                      exceptOk] at h
              · simp [formatAnswer, formatAnswerAmended, jsGetField,
                  jsIsObjectType, hl, ht, json_str_ite]

/-- Witness for C4 at `{"label": "Yes"}`. -/
theorem c4_answer_formatting_witness :
    exceptOk (formatAnswer (some (.obj [("label", .str "Yes")]))) = true ∧
    formatAnswer (some (.obj [("label", .str "Yes")])) =
      .ok (formatAnswerAmended (some (.obj [("label", .str "Yes")]))) :=
  ⟨by rfl, c4_answer_formatting_amended (some (.obj [("label", .str "Yes")])) (by rfl)⟩

/-! ## C5 — question resolution (corrected: later policies override) -/

/-- Counterexample to C5 as stated: with two associated policies both
containing a matching definition, the claimed document-order search resolves
to the first definition's chain (`"" || "extA" || … = "extA"`), but the
code's stage-loop `break` leaves the policy loop running, so the second
policy's definition overwrites the question (`"NameB"`). -/
theorem c5_counterexample :
    resolveQuestion w5Cache w5Ev w5Refs = "NameB" ∧
    resolveQuestionClaim w5Cache w5Ev w5Refs = "extA" ∧
    resolveQuestion w5Cache w5Ev w5Refs ≠ resolveQuestionClaim w5Cache w5Ev w5Refs := by
  refine ⟨by rfl, by rfl, ?_⟩
  intro hc
  have h1 : resolveQuestion w5Cache w5Ev w5Refs = "NameB" := by rfl
  have h2 : resolveQuestionClaim w5Cache w5Ev w5Refs = "extA" := by rfl
  rw [h1, h2] at hc
  exact absurd hc (by decide)

theorem c5_resolve_loop (pc : List (String × Policy)) (evId : Option String) :
    ∀ (l : List PolicyRef) (q0 : String),
      l.foldl (fun q ref =>
        match lookupPolicy pc ref with
        | none => q
        | some fp =>
            match findDefInPolicy fp evId with
            | none => q
            | some d => jsOrS d.name (jsOrS d.externalId q)) q0 =
      (l.filterMap (fun ref =>
        (lookupPolicy pc ref).bind (fun fp => findDefInPolicy fp evId))).foldl
        (fun q d => jsOrS d.name (jsOrS d.externalId q)) q0 := by
  intro l
  induction l with
  | nil => intro q0; rfl
  | cons ref l ih =>
      intro q0
      cases h1 : lookupPolicy pc ref with
      | none => simp [List.foldl_cons, List.filterMap_cons, h1, ih]
      | some fp =>
          cases h2 : findDefInPolicy fp evId with
          | none => simp [List.foldl_cons, List.filterMap_cons, h1, h2, ih]
          | some d => simp [List.foldl_cons, List.filterMap_cons, h1, h2, ih]

/-- **C5** (amended): the resolved question starts from the *first* matching
definition's external id (falling back to the record's evidence id, then
`"Unknown"`), and then, for **each** associated policy in order whose stages
contain a matching definition, is overwritten by that definition's name,
falling back to its external id, falling back to the value so far — so with
several matching policies the last one wins. -/
theorem c5_question_resolution_amended (pc : List (String × Policy))
    (ev : EvidenceRecord) (bps : Option (List PolicyRef)) :
    resolveQuestion pc ev bps = resolveQuestionAmended pc ev bps := by
  unfold resolveQuestion resolveQuestionAmended matchedDefs
  exact c5_resolve_loop pc ev.evidenceId (bps.getD []) _

/-! ## C6 — a failed compute-policy fetch is isolated -/

theorem alookup_applyFetch (st : FetchState) (b : Bundle)
    (out : Except Unit ComputeResp) (q : String) :
    alookup q (applyFetch st b out).evidence =
      match out with
      | .error _ => alookup q st.evidence
      | .ok data =>
          if q = b.id then some (normalizeComputeEvidence data)
          else alookup q st.evidence := by
  cases out with
  | error e => rfl
  | ok data => cases hp : data.policy <;> simp [applyFetch, hp, alookup_assocInsert]

theorem c6_aux (f g : Bundle → Except Unit ComputeResp) (bid : String)
    (hagree : ∀ b, b.id ≠ bid → f b = g b)
    (hfail : ∀ b, b.id = bid → g b = .error ()) :
    ∀ (bundles : List Bundle) (st1 st2 : FetchState),
      (∀ id2, id2 ≠ bid → alookup id2 st1.evidence = alookup id2 st2.evidence) →
      alookup bid st2.evidence = none →
      (∀ id2, id2 ≠ bid →
        alookup id2 (bundles.foldl (fun st b => applyFetch st b (f b)) st1).evidence =
        alookup id2 (bundles.foldl (fun st b => applyFetch st b (g b)) st2).evidence) ∧
      alookup bid (bundles.foldl (fun st b => applyFetch st b (g b)) st2).evidence = none := by
  intro bundles
  induction bundles with
  | nil => intro st1 st2 hev hnone; exact ⟨hev, hnone⟩
  | cons b l ih =>
      intro st1 st2 hev hnone
      simp only [List.foldl_cons]
      by_cases hb : b.id = bid
      · have hg : g b = .error () := hfail b hb
        apply ih
        · intro id2 hid
          have hne : ¬id2 = b.id := fun hc => hid (hc.trans hb)
          cases hf : f b with
          | error e => simp [alookup_applyFetch, hf, hg, hev id2 hid]
          | ok data => simp [alookup_applyFetch, hf, hg, hne, hev id2 hid]
        · simp [alookup_applyFetch, hg, hnone]
      · have hfg : f b = g b := hagree b hb
        apply ih
        · intro id2 hid
          cases hg2 : g b with
          | error e => simp [alookup_applyFetch, hfg, hg2, hev id2 hid]
          | ok data =>
              by_cases hq : id2 = b.id
              · simp [alookup_applyFetch, hfg, hg2, hq]
              · simp [alookup_applyFetch, hfg, hg2, hq, hev id2 hid]
        · cases hg2 : g b with
          | error e => simp [alookup_applyFetch, hg2, hnone]
          | ok data =>
              have hne : ¬bid = b.id := fun hc => hb hc.symm
              simp [alookup_applyFetch, hg2, hne, hnone]

/-- **C6**: if the compute-policy fetch fails for the bundles with one id and
is unchanged for every other bundle, every other bundle's stored evidence is
exactly what it is in the fully-agreeing scenario (the fold — the
`Promise.all` barrier — always completes since each failure is caught), no
evidence is stored under the failed id, and the downstream
`appState.evidence[bundle.id] || []` read (line 381) yields the empty list
for it. -/
theorem c6_failed_fetch_isolated (bundles : List Bundle)
    (f g : Bundle → Except Unit ComputeResp) (bid : String)
    (hagree : ∀ b, b.id ≠ bid → f b = g b)
    (hfail : ∀ b, b.id = bid → g b = .error ()) :
    (∀ id2, id2 ≠ bid →
      alookup id2 (runFetches bundles f).evidence =
      alookup id2 (runFetches bundles g).evidence) ∧
    alookup bid (runFetches bundles g).evidence = none ∧
    (alookup bid (runFetches bundles g).evidence).getD [] = [] := by
  have h := c6_aux f g bid hagree hfail bundles ⟨[], []⟩ ⟨[], []⟩
    (fun _ _ => rfl) rfl
  refine ⟨h.1, h.2, ?_⟩
  unfold runFetches
  rw [h.2]
  rfl

/-- Witness for C6: two bundles, the second one's fetch failing. -/
theorem c6_failed_fetch_witness :
    (∀ b : Bundle, b.id ≠ "b2" → w6f b = w6g b) ∧
    (∀ b : Bundle, b.id = "b2" → w6g b = .error ()) ∧
    ((∀ id2, id2 ≠ "b2" →
        alookup id2 (runFetches [w6Bundle "b1", w6Bundle "b2"] w6f).evidence =
        alookup id2 (runFetches [w6Bundle "b1", w6Bundle "b2"] w6g).evidence) ∧
      alookup "b2" (runFetches [w6Bundle "b1", w6Bundle "b2"] w6g).evidence = none ∧
      (alookup "b2" (runFetches [w6Bundle "b1", w6Bundle "b2"] w6g).evidence).getD [] = []) :=
  ⟨fun b h => by simp [w6f, w6g, h],
   fun b h => by simp [w6g, h],
   c6_failed_fetch_isolated [w6Bundle "b1", w6Bundle "b2"] w6f w6g "b2"
     (fun b h => by simp [w6f, w6g, h])
     (fun b h => by simp [w6g, h])⟩

/-! ## C1 — provenance and filtering of table rows -/

theorem exceptFoldlM_append {α σ : Type} (f : σ → α → Except Unit σ) :
    ∀ (l1 l2 : List α) (s : σ),
      exceptFoldlM f s (l1 ++ l2) =
        match exceptFoldlM f s l1 with
        | .error e => .error e
        | .ok s2 => exceptFoldlM f s2 l2 := by
  intro l1
  induction l1 with
  | nil => intro l2 s; rfl
  | cons a l1 ih =>
      intro l2 s
      cases hf : f s a with
      | error e => simp [exceptFoldlM, hf]
      | ok s2 => simp [exceptFoldlM, hf, ih]

theorem buildRow_ok_bundleId (pc : List (String × Policy))
    (evStore : List (String × List EvidenceRecord)) (b : Bundle) (r : Row)
    (h : buildRow pc evStore b = .ok r) : r.bundleId = b.id := by
  unfold buildRow at h
  cases h1 : extractQADictionary pc ((alookup b.id evStore).getD []) b.policies with
  | error e => simp [h1, bind, Except.bind] at h
  | ok qa =>
      cases h2 : extractFilesFromQA qa with
      | error e => simp [h1, h2, bind, Except.bind] at h
      | ok fl =>
          simp only [h1, h2, bind, Except.bind, pure, Except.pure,
            Except.ok.injEq] at h
          rw [← h]

theorem processData_rows_mem (pc : List (String × Policy))
    (evStore : List (String × List EvidenceRecord)) :
    ∀ (l : List Bundle) (acc rows : List Row),
      exceptFoldlM (processStep pc evStore) acc l = .ok rows →
      ∀ r ∈ rows, r ∈ acc ∨
        ∃ b ∈ l, buildRow pc evStore b = .ok r ∧ validModelName r = true := by
  intro l
  induction l with
  | nil =>
      intro acc rows h r hr
      simp only [exceptFoldlM, Except.ok.injEq] at h
      subst h
      exact Or.inl hr
  | cons b l ih =>
      intro acc rows h r hr
      cases hb : buildRow pc evStore b with
      | error e => simp [exceptFoldlM, processStep, hb, Except.map] at h
      | ok row0 =>
          have hstep : processStep pc evStore acc b =
              .ok (if validModelName row0 then acc ++ [row0] else acc) := by
            simp [processStep, hb, Except.map]
          rw [show exceptFoldlM (processStep pc evStore) acc (b :: l) =
              exceptFoldlM (processStep pc evStore)
                (if validModelName row0 then acc ++ [row0] else acc) l from by
            simp [exceptFoldlM, hstep]] at h
          rcases ih _ rows h r hr with hacc | ⟨b2, hb2, hbuild, hvalid⟩
          · by_cases hv : validModelName row0
            · rw [if_pos hv] at hacc
              rcases List.mem_append.mp hacc with h2 | h2
              · exact Or.inl h2
              · have : r = row0 := List.mem_singleton.mp h2
                subst this
                exact Or.inr ⟨b, List.mem_cons_self b l, hb, hv⟩
            · rw [if_neg hv] at hacc
              exact Or.inl hacc
          · exact Or.inr ⟨b2, List.mem_cons_of_mem b hb2, hbuild, hvalid⟩

theorem sortRows_mem (rows td : List Row) (h : sortRows rows = .ok td) :
    ∀ r ∈ td, r ∈ rows := by
  intro r hr
  unfold sortRows at h
  cases hk : exceptMapM (fun r => (rowIdStr r).map (fun s => (r, s))) rows with
  | error e => simp [hk, bind, Except.bind] at h
  | ok keyed =>
      simp only [hk, bind, Except.bind, pure, Except.pure, Except.ok.injEq] at h
      subst h
      obtain ⟨p, hp, hpr⟩ := List.mem_map.mp hr
      have hpk : p ∈ keyed := (List.mem_insertionSort keyLe).mp hp
      obtain ⟨a, ha, hfa⟩ := exceptMapM_ok_mem _ rows keyed hk p hpk
      cases hi : rowIdStr a with
      | error e => simp [hi, Except.map] at hfa
      | ok s =>
          simp only [hi, Except.map, Except.ok.injEq] at hfa
          rw [← hpr, ← hfa]
          exact ha

theorem validModelName_spec (r : Row) (h : validModelName r = true) :
    ∃ s, r.modelName = some (.str s) ∧ strTrim s ≠ "" ∧ strToLower s ≠ "unknown" := by
  unfold validModelName at h
  cases hm : r.modelName with
  | none => rw [hm] at h; cases h
  | some v =>
      cases v <;> rw [hm] at h <;> try cases h
      case str s =>
        rw [Bool.and_eq_true, bne_iff_ne, bne_iff_ne] at h
        exact ⟨s, rfl, h.1, h.2⟩

/-- **C1**: (a) every row of `appState.tableData` after the pipeline comes
from a bundle of the fetched list that is not archived and whose policy list
contains the hardcoded policy id, is that bundle's built row, carries its id,
and has a model name that is a string, non-empty after trimming and not
`'unknown'` lowercased; (b) removing an archived or policy-less bundle from
the bundle list leaves the table unchanged (it contributes no row); (c) the
same for a bundle whose built row has an invalid model name. -/
theorem c1_row_provenance :
    (∀ (bundles : List Bundle) (evStore : List (String × List EvidenceRecord))
        (pc : List (String × Policy)) (td : List Row) (row : Row),
        dashboardTableData bundles evStore pc = .ok td → row ∈ td →
        ∃ b ∈ bundles, b.state ≠ some "Archived" ∧
          (∃ p ∈ b.policies.getD [], p.policyId = some HARDCODED_POLICY_ID) ∧
          buildRow pc evStore b = .ok row ∧ row.bundleId = b.id ∧
          ∃ s, row.modelName = some (.str s) ∧ strTrim s ≠ "" ∧
            strToLower s ≠ "unknown") ∧
    (∀ (bundles1 bundles2 : List Bundle) (b : Bundle)
        (evStore : List (String × List EvidenceRecord))
        (pc : List (String × Policy)),
        (b.state = some "Archived" ∨
          ∀ p ∈ b.policies.getD [], p.policyId ≠ some HARDCODED_POLICY_ID) →
        dashboardTableData (bundles1 ++ b :: bundles2) evStore pc =
          dashboardTableData (bundles1 ++ bundles2) evStore pc) ∧
    (∀ (bundles1 bundles2 : List Bundle) (b : Bundle)
        (evStore : List (String × List EvidenceRecord))
        (pc : List (String × Policy)) (r : Row),
        buildRow pc evStore b = .ok r → validModelName r = false →
        dashboardTableData (bundles1 ++ b :: bundles2) evStore pc =
          dashboardTableData (bundles1 ++ bundles2) evStore pc) := by
  refine ⟨?_, ?_, ?_⟩
  · intro bundles evStore pc td row h hrow
    unfold dashboardTableData processData at h
    cases hrows : exceptFoldlM (processStep pc evStore) ([] : List Row)
        (bundles.filter fetchFilter) with
    | error e => simp [hrows, bind, Except.bind] at h
    | ok rows =>
        simp only [hrows, bind, Except.bind] at h
        have hmem := sortRows_mem rows td h row hrow
        rcases processData_rows_mem pc evStore _ _ _ hrows row hmem with
          hacc | ⟨b, hbf, hbuild, hvalid⟩
        · cases hacc
        · have hbb := List.mem_filter.mp hbf
          have hff := hbb.2
          unfold fetchFilter at hff
          rw [Bool.and_eq_true] at hff
          obtain ⟨p, hp, hpid⟩ := List.any_eq_true.mp hff.2
          refine ⟨b, hbb.1, bne_iff_ne.mp hff.1, ⟨p, hp, ?_⟩, hbuild,
            buildRow_ok_bundleId pc evStore b row hbuild,
            validModelName_spec row hvalid⟩
          exact (beq_iff_eq.mp hpid)
  · intro bundles1 bundles2 b evStore pc hbad
    have hf : fetchFilter b = false := by
      unfold fetchFilter
      rcases hbad with hstate | hpol
      · simp [hstate]
      · rw [Bool.and_eq_false_iff]
        right
        rw [List.any_eq_false]
        intro p hp
        simp [hpol p hp]
    unfold dashboardTableData
    rw [List.filter_append, List.filter_append, List.filter_cons, hf]
    simp
  · intro bundles1 bundles2 b evStore pc r hb hval
    cases hfb : fetchFilter b with
    | false =>
        unfold dashboardTableData
        rw [List.filter_append, List.filter_append, List.filter_cons, hfb]
        simp
    | true =>
        unfold dashboardTableData processData
        rw [List.filter_append, List.filter_append, List.filter_cons, hfb]
        simp only [if_true]
        rw [exceptFoldlM_append, exceptFoldlM_append]
        cases h1 : exceptFoldlM (processStep pc evStore) ([] : List Row)
            (bundles1.filter fetchFilter) with
        | error e => rfl
        | ok acc1 =>
            have hstep : processStep pc evStore acc1 b = .ok acc1 := by
              simp [processStep, hb, hval, Except.map]
            simp [exceptFoldlM, hstep]

/-- Witness for C1 on a one-bundle run producing exactly one row. -/
theorem c1_row_provenance_witness :
    dashboardTableData [w1Bundle] w1Ev w1Cache = .ok [w1Row] ∧
    w1Row ∈ [w1Row] ∧
    (∃ b ∈ [w1Bundle], b.state ≠ some "Archived" ∧
      (∃ p ∈ b.policies.getD [], p.policyId = some HARDCODED_POLICY_ID) ∧
      buildRow w1Cache w1Ev b = .ok w1Row ∧ w1Row.bundleId = b.id ∧
      ∃ s, w1Row.modelName = some (.str s) ∧ strTrim s ≠ "" ∧
        strToLower s ≠ "unknown") :=
  ⟨by rfl, List.mem_singleton.mpr rfl,
   c1_row_provenance.1 [w1Bundle] w1Ev w1Cache [w1Row] w1Row (by rfl)
     (List.mem_singleton.mpr rfl)⟩

/-! ## C3 — table rows are sorted by numeric model-id part, ties by string -/

theorem sortRows_pairwise (rows td : List Row) (h : sortRows rows = .ok td) :
    (td.map rowKey).Pairwise
      (fun x y => numOf x < numOf y ∨ (numOf x = numOf y ∧ strLe x y = true)) := by
  unfold sortRows at h
  cases hk : exceptMapM (fun r => (rowIdStr r).map (fun s => (r, s))) rows with
  | error e => simp [hk, bind, Except.bind] at h
  | ok keyed =>
      simp only [hk, bind, Except.bind, pure, Except.pure, Except.ok.injEq] at h
      subst h
      have hsorted : List.Pairwise keyLe (keyed.insertionSort keyLe) :=
        List.sorted_insertionSort keyLe keyed
      have hmem : ∀ p ∈ keyed.insertionSort keyLe, rowKey p.1 = p.2 := by
        intro p hp
        obtain ⟨a, ha, hfa⟩ := exceptMapM_ok_mem _ rows keyed hk p
          ((List.mem_insertionSort keyLe).mp hp)
        cases hi : rowIdStr a with
        | error e => simp [hi, Except.map] at hfa
        | ok s =>
            simp only [hi, Except.map, Except.ok.injEq] at hfa
            rw [← hfa]
            unfold rowKey
            rw [hi]
      rw [List.map_map, List.pairwise_map]
      apply List.Pairwise.imp_of_mem ?_ hsorted
      intro a b ha hb hab
      have h1 := hmem a ha
      have h2 := hmem b hb
      simp only [Function.comp_apply]
      rw [h1, h2]
      exact hab

/-- **C3**: after `processData`, the numeric part of each row's model-id
string is non-decreasing along the table, and rows with equal numeric part
are ordered by the (lexicographically modelled) string comparison of the
full id. -/
theorem c3_rows_sorted (bundles : List Bundle)
    (evStore : List (String × List EvidenceRecord))
    (pc : List (String × Policy)) (td : List Row)
    (h : processData bundles evStore pc = .ok td) :
    ((td.map rowKey).Pairwise (fun x y => numOf x ≤ numOf y)) ∧
    ((td.map rowKey).Pairwise (fun x y => numOf x = numOf y → strLe x y = true)) := by
  unfold processData at h
  cases hrows : exceptFoldlM (processStep pc evStore) ([] : List Row) bundles with
  | error e => simp [hrows, bind, Except.bind] at h
  | ok rows =>
      simp only [hrows, bind, Except.bind] at h
      have hp := sortRows_pairwise rows td h
      constructor
      · exact hp.imp (fun hab => hab.elim Nat.le_of_lt (fun h2 => Nat.le_of_eq h2.1))
      · refine hp.imp (fun hab heq => ?_)
        rcases hab with hlt | ⟨_, hle⟩
        · exact absurd (heq ▸ hlt) (lt_irrefl _)
        · exact hle

/-- Witness for C3: two bundles with model ids `"M2"` and `"M1"` come out in
the order `M1, M2`. -/
theorem c3_rows_sorted_witness :
    processData [w3Bundle "b1", w3Bundle "b2"] w3Ev w3Cache =
      .ok [w3Row "b2" "Beta" "M1", w3Row "b1" "Alpha" "M2"] ∧
    ((([w3Row "b2" "Beta" "M1", w3Row "b1" "Alpha" "M2"].map rowKey).Pairwise
        (fun x y => numOf x ≤ numOf y)) ∧
      (([w3Row "b2" "Beta" "M1", w3Row "b1" "Alpha" "M2"].map rowKey).Pairwise
        (fun x y => numOf x = numOf y → strLe x y = true))) :=
  ⟨by rfl,
   c3_rows_sorted [w3Bundle "b1", w3Bundle "b2"] w3Ev w3Cache
     [w3Row "b2" "Beta" "M1", w3Row "b1" "Alpha" "M2"] (by rfl)⟩

/-! ## C8 — CSV export round-trip (corrected: modulo the export's cleaning) -/

theorem csvQuoted_esc :
    ∀ (cs rest : List Char), rest.head? ≠ some '"' →
      csvQuoted (cs.flatMap (fun c => if c = '"' then ['"', '"'] else [c]) ++
        '"' :: rest) = some (cs, rest) := by
  intro cs
  induction cs with
  | nil =>
      intro rest hrest
      cases rest with
      | nil => rfl
      | cons r rs =>
          have hr : ¬r = '"' := fun hc => hrest (by rw [hc]; rfl)
          simp [csvQuoted, hr]
  | cons c cs ih =>
      intro rest hrest
      by_cases hc : c = '"'
      · subst hc
        rw [List.flatMap_cons]
        simp only [if_pos rfl, List.cons_append, List.nil_append]
        simp only [csvQuoted, if_pos rfl]
        simp [List.append_eq, List.nil_append, ih rest hrest]
      · simp only [List.flatMap_cons, if_neg hc, List.cons_append, List.nil_append,
          List.singleton_append]
        have hrec := ih rest hrest
        unfold csvQuoted
        rw [if_neg hc, hrec]
        rfl

theorem escQuotes_data (s : String) :
    (escQuotes s).data =
      s.data.flatMap (fun c => if c = '"' then ['"', '"'] else [c]) := rfl

theorem csvRecord_line (q a : String) (rest : List Char) (n : Nat) :
    csvRecord (n + 2)
      ('"' :: (escQuotes q).data ++ '"' :: ',' :: '"' :: (escQuotes a).data ++
        '"' :: '\n' :: rest) = some ([q, a], rest) := by
  have h1 := csvQuoted_esc q.data
    (',' :: '"' :: (a.data.flatMap (fun c => if c = '"' then ['"', '"'] else [c]) ++
      '"' :: '\n' :: rest)) (by simp)
  have h2 := csvQuoted_esc a.data ('\n' :: rest) (by simp)
  rw [escQuotes_data, escQuotes_data]
  have hmkq : String.mk q.data = q := rfl
  have hmka : String.mk a.data = a := rfl
  simp only [List.append_assoc, List.cons_append] at h1 h2 ⊢
  simp [csvRecord, h1, h2, hmkq, hmka]


theorem csvRecord_header (rest : List Char) (n : Nat) :
    csvRecord (n + 2)
      ('Q' :: 'u' :: 'e' :: 's' :: 't' :: 'i' :: 'o' :: 'n' :: ',' ::
        'A' :: 'n' :: 's' :: 'w' :: 'e' :: 'r' :: '\n' :: rest) =
      some (["Question", "Answer"], rest) := by
  rfl

theorem csvRecord_line2 (q a : String) (rest : List Char) (fuel : Nat)
    (h : 2 ≤ fuel) :
    csvRecord fuel
      ('"' :: (escQuotes q).data ++ '"' :: ',' :: '"' :: (escQuotes a).data ++
        '"' :: '\n' :: rest) = some ([q, a], rest) := by
  obtain ⟨n, rfl⟩ : ∃ n, fuel = n + 2 := ⟨fuel - 2, by omega⟩
  exact csvRecord_line q a rest n

theorem csvRecord_header2 (rest : List Char) (fuel : Nat) (h : 2 ≤ fuel) :
    csvRecord fuel
      ('Q' :: 'u' :: 'e' :: 's' :: 't' :: 'i' :: 'o' :: 'n' :: ',' ::
        'A' :: 'n' :: 's' :: 'w' :: 'e' :: 'r' :: '\n' :: rest) =
      some (["Question", "Answer"], rest) := by
  obtain ⟨n, rfl⟩ : ∃ n, fuel = n + 2 := ⟨fuel - 2, by omega⟩
  exact csvRecord_header rest n

theorem join_data_aux :
    ∀ (l : List String) (s : String),
      (l.foldl (fun r t => r ++ t) s).data = s.data ++ (l.map String.data).flatten := by
  intro l
  induction l with
  | nil => intro s; simp
  | cons t l ih =>
      intro s
      simp [List.foldl_cons, ih, List.append_assoc]

theorem join_data (l : List String) :
    (String.join l).data = (l.map String.data).flatten := by
  have h := join_data_aux l ""
  simpa [String.join] using h

theorem csvLineOf_data_append (p : String × String) (rest : List Char) :
    (csvLineOf p).data ++ rest =
      '"' :: (escQuotes p.1).data ++ '"' :: ',' :: '"' :: (escQuotes p.2).data ++
        '"' :: '\n' :: rest := by
  simp [csvLineOf, List.append_assoc]

theorem linesLen_ge :
    ∀ pairs : List (String × String),
      pairs.length ≤ ((pairs.map csvLineOf).map String.data).flatten.length := by
  intro pairs
  induction pairs with
  | nil => simp
  | cons p ps ih =>
      simp only [List.map_cons, List.flatten_cons, List.length_append, List.length_cons]
      have h1 : 1 ≤ (csvLineOf p).data.length := by
        simp [csvLineOf]
      omega

theorem csvRecordsAux_lines :
    ∀ (pairs : List (String × String)) (fuel : Nat), pairs.length < fuel →
      csvRecordsAux fuel ((pairs.map csvLineOf).map String.data).flatten =
        some (pairs.map (fun p => [p.1, p.2])) := by
  intro pairs
  induction pairs with
  | nil =>
      intro fuel hf
      cases fuel with
      | zero => omega
      | succ f => rfl
  | cons p ps ih =>
      intro fuel hf
      cases fuel with
      | zero => omega
      | succ f =>
          have hf2 : ps.length < f := by
            simp only [List.length_cons] at hf
            omega
          simp only [List.map_cons, List.flatten_cons]
          rw [csvLineOf_data_append]
          have hfuel : 2 ≤
              ('"' :: (escQuotes p.1).data ++ '"' :: ',' :: '"' ::
                (escQuotes p.2).data ++ '"' :: '\n' ::
                ((ps.map csvLineOf).map String.data).flatten).length + 1 := by
            simp
          simp only [csvRecordsAux]
          rw [csvRecord_line2 p.1 p.2 _ _ hfuel]
          have ih2 := ih f hf2
          rw [List.map_map] at ih2
          simp [ih2]

theorem csvRecordsAux_cons (fuel : Nat) (c : Char) (cs : List Char) :
    csvRecordsAux (fuel + 1) (c :: cs) =
      match csvRecord ((c :: cs).length + 1) (c :: cs) with
      | none => none
      | some (fields, rest) => (csvRecordsAux fuel rest).map (fun rs => fields :: rs) :=
  rfl

theorem csvSplit_renderCsv (pairs : List (String × String)) :
    csvSplit (renderCsv pairs) =
      some (["Question", "Answer"] :: pairs.map (fun p => [p.1, p.2])) := by
  unfold csvSplit renderCsv
  have hdata : ("Question,Answer\n" ++ String.join (pairs.map csvLineOf)).data =
      'Q' :: 'u' :: 'e' :: 's' :: 't' :: 'i' :: 'o' :: 'n' :: ',' ::
        'A' :: 'n' :: 's' :: 'w' :: 'e' :: 'r' :: '\n' ::
        ((pairs.map csvLineOf).map String.data).flatten := by
    rw [String.data_append, join_data]
    rfl
  have hL : pairs.length <
      ("Question,Answer\n" ++ String.join (pairs.map csvLineOf)).length := by
    have h1 := linesLen_ge pairs
    have h2 : ("Question,Answer\n" ++ String.join (pairs.map csvLineOf)).length =
        16 + ((pairs.map csvLineOf).map String.data).flatten.length := by
      show ("Question,Answer\n" ++ String.join (pairs.map csvLineOf)).data.length = _
      rw [hdata]
      simp
      omega
    omega
  rw [hdata]
  rw [csvRecordsAux_cons, csvRecord_header2 _ _ (by simp)]
  dsimp only
  rw [csvRecordsAux_lines pairs _ hL]
  rfl

theorem exceptMapM_map_comp {α β γ : Type} (f : α → Except Unit β) (g : β → γ) :
    ∀ l : List α,
      exceptMapM (fun a => (f a).map g) l =
        (exceptMapM f l).map (fun bs => bs.map g) := by
  intro l
  induction l with
  | nil => rfl
  | cons a l ih =>
      simp only [exceptMapM, ih]
      cases hf : f a with
      | error e => simp [hf, Except.map]
      | ok b =>
          cases hl : exceptMapM f l with
          | error e => simp [hf, hl, Except.map]
          | ok bs => simp [hf, hl, Except.map]

theorem copyQACsv_renderCsv (d : List (String × QAEntry))
    (pairs : List (String × String))
    (h : exceptMapM qaCleanPair d = .ok pairs) :
    copyQACsv d = .ok (renderCsv pairs) := by
  have hfun : (fun p : String × QAEntry => qaCsvLine p.1 p.2) =
      fun p => (qaCleanPair p).map csvLineOf := by
    funext p
    unfold qaCsvLine qaCleanPair
    cases qaCleanAnswer p.2 <;> rfl
  unfold copyQACsv
  rw [hfun, exceptMapM_map_comp qaCleanPair csvLineOf d, h]
  rfl

theorem exceptMapM_ok_fst :
    ∀ (d : List (String × QAEntry)) (pairs : List (String × String)),
      exceptMapM qaCleanPair d = .ok pairs →
      pairs.map Prod.fst = d.map Prod.fst := by
  intro d
  induction d with
  | nil =>
      intro pairs h
      simp only [exceptMapM, Except.ok.injEq] at h
      subst h; rfl
  | cons p d ih =>
      intro pairs h
      cases ha : qaCleanAnswer p.2 with
      | error e => simp [exceptMapM, qaCleanPair, ha, Except.map] at h
      | ok a =>
          cases hl : exceptMapM qaCleanPair d with
          | error e => simp [exceptMapM, qaCleanPair, ha, hl, Except.map] at h
          | ok ps =>
              simp only [exceptMapM, qaCleanPair, ha, hl, Except.map,
                Except.ok.injEq] at h
              subst h
              simp [ih ps hl]

/-- Counterexample to C8 as stated: an answer carrying the formatter's bullet
markup (`"• a<br>• b"`). The export strips bullets, turns `<br>` into `" | "`
and trims, so re-splitting the CSV recovers `("Q", "a |  b")`, not the
original pair — although the answer is not a nested-object answer at all
(JSON-flattening leaves it unchanged), so the claim's "modulo
JSON-flattening" proviso does not license the difference. -/
theorem c8_counterexample :
    copyQACsv [("Q", w8Entry)] = .ok "Question,Answer\n\"Q\",\"a |  b\"\n" ∧
    csvSplit "Question,Answer\n\"Q\",\"a |  b\"\n" =
      some [["Question", "Answer"], ["Q", "a |  b"]] ∧
    w8Entry.answer = .str "• a<br>• b" ∧
    flattenJSONForSheets w8Entry.answer = .ok w8Entry.answer ∧
    ("a |  b" : String) ≠ "• a<br>• b" := by
  refine ⟨by rfl, by rfl, rfl, by rfl, by decide⟩

/-- **C8** (amended): exporting a Q/A dictionary to CSV and re-splitting on
unescaped commas and quotes recovers the question/answer pairs *modulo the
export's answer cleaning*: each recovered answer is the JSON-flattened,
bullet-stripped, `<br>`→`" | "`, trimmed form of the stored answer (exact for
plain single-line trimmed non-JSON answers); questions are recovered
verbatim. Stated for every dictionary whose cleaning succeeds (a non-string
stored answer makes the export throw). -/
theorem c8_csv_roundtrip_amended (d : List (String × QAEntry))
    (pairs : List (String × String))
    (h : exceptMapM qaCleanPair d = .ok pairs) :
    copyQACsv d = .ok (renderCsv pairs) ∧
    csvSplit (renderCsv pairs) =
      some (["Question", "Answer"] :: pairs.map (fun p => [p.1, p.2])) ∧
    pairs.map Prod.fst = d.map Prod.fst :=
  ⟨copyQACsv_renderCsv d pairs h, csvSplit_renderCsv pairs,
   exceptMapM_ok_fst d pairs h⟩

/-- Witness for C8 on a one-entry dictionary with a plain answer. -/
theorem c8_csv_roundtrip_witness :
    exceptMapM qaCleanPair [("Q1", w8Plain)] = .ok [("Q1", "plain answer")] ∧
    (copyQACsv [("Q1", w8Plain)] = .ok (renderCsv [("Q1", "plain answer")]) ∧
      csvSplit (renderCsv [("Q1", "plain answer")]) =
        some (["Question", "Answer"] ::
          [("Q1", "plain answer")].map (fun p => [p.1, p.2])) ∧
      [("Q1", "plain answer")].map Prod.fst = [("Q1", w8Plain)].map Prod.fst) :=
  ⟨by rfl, c8_csv_roundtrip_amended [("Q1", w8Plain)] [("Q1", "plain answer")] (by rfl)⟩
